import Mathlib

/-!
# CodePack — verification of the discovery/classification pipeline and
multi-format serialization layer

Shallow embedding of `src/index.js` (the `CodePack` class): path validation,
file discovery and classification, content normalization, priority ordering,
the JSON document builder, the MessagePack/Base64 archive payload, and the
output orchestration (single-format and all-formats runs).

Strings are modelled as Lean `String`/`List Char`; byte sequences as
`List Nat` with values below 256; machine integers as `Nat` (JS sizes are
non-negative integers well below 2^53 so no overflow modelling is needed).
Fallible operations return `Option`/`Except`. Regex-based transforms are
translated replace-by-replace into executable scanners with explicit fuel.
-/

set_option maxRecDepth 16000

namespace CodePack

/-! ## Basic character and string utilities -/

/-- JS `\s` (whitespace) character class, as used by the regexes in
`optimizeContent` and friends: ASCII whitespace plus the Unicode space
separators and BOM that JavaScript's `\s` matches. -/
def isWs (c : Char) : Bool :=
  c = ' ' || c = '\t' || c = '\n' || c = '\r' ||
  c = (Char.ofNat 0x0b) || c = (Char.ofNat 0x0c) ||
  c = (Char.ofNat 0xa0) || c = (Char.ofNat 0x1680) ||
  (0x2000 ≤ c.toNat && c.toNat ≤ 0x200a) ||
  c = (Char.ofNat 0x2028) || c = (Char.ofNat 0x2029) ||
  c = (Char.ofNat 0x202f) || c = (Char.ofNat 0x205f) ||
  c = (Char.ofNat 0x3000) || c = (Char.ofNat 0xfeff)

/-- `[ \t]`: the character class of the trailing-whitespace regexes. -/
def isBlank (c : Char) : Bool := c = ' ' || c = '\t'

/-- Does string `s` start with `pre`? (JS `String.prototype.startsWith`). -/
def strStarts (s pre : String) : Bool :=
  go s.toList pre.toList
where
  go : List Char → List Char → Bool
    | _, [] => true
    | [], _ :: _ => false
    | c :: cs, p :: ps => c = p && go cs ps

/-- Does the character list `s` contain `pat` as a contiguous run?
(JS `String.prototype.includes`). -/
def listHasSub (pat : List Char) : List Char → Bool
  | [] => decide (pat = [])
  | c :: cs => strStarts.go (c :: cs) pat || listHasSub pat cs

/-- JS `String.prototype.includes`. -/
def strHasSub (s pat : String) : Bool := listHasSub pat.toList s.toList

/-- Split a character list at a separator, keeping empty groups
(the semantics of JS `String.prototype.split` with a single-character
separator). -/
def splitOnChar (sep : Char) : List Char → List (List Char)
  | [] => [[]]
  | c :: cs =>
      let r := splitOnChar sep cs
      if c = sep then [] :: r
      else
        match r with
        | [] => [[c]]
        | g :: gs => (c :: g) :: gs

/-- Split a string at `/` (for path components). -/
def pathParts (p : String) : List String :=
  (splitOnChar '/' p.toList).map String.mk

/-- JS `path.basename`: the final path component. -/
def basename (p : String) : String :=
  match (pathParts p).getLast? with
  | some b => b
  | none => p

/-- JS `path.extname`: substring of the basename from its last `.`,
empty when there is no dot or the only dot leads the basename
(so `".gitignore"` has extension `""`, `"a.b.c"` has `".c"`). -/
def extname (p : String) : String :=
  let b := (basename p).toList
  match lastDot b 0 none with
  | some i => String.mk (b.drop i)
  | none => ""
where
  /-- Index of the last `'.'` strictly after position 0, if any. -/
  lastDot : List Char → Nat → Option Nat → Option Nat
    | [], _, acc => acc
    | c :: cs, i, acc =>
        lastDot cs (i + 1) (if c = '.' && i ≠ 0 then some i else acc)

/-- JS `String.prototype.toLowerCase`, restricted to the ASCII range the
discovery filters compare against. -/
def jsToLower (s : String) : String := String.mk (s.toList.map Char.toLower)

/-! ## PathValidator (`CodePack.validateInputPath`, src/index.js lines 276-296)

The source resolves the path, stats it, and checks it against
`RESTRICTED_SYSTEM_PATHS` plus the user's `~/.ssh`; any failure inside the
`try` block lands in the `catch`, which prints and calls `process.exit(1)`.
The filesystem answers (`realpathSync`, `existsSync`, `statSync`) are
parameters of the model. -/

/-- `RESTRICTED_SYSTEM_PATHS` (src/index.js line 34). -/
def RESTRICTED_SYSTEM_PATHS : List String := ["/etc", "/sys", "/proc"]

/-- Outcome of `validateInputPath`: either the validated real path, or a
process exit — the `catch` block terminates the process, there is no
recoverable-error outcome. -/
inductive ValidationResult where
  | ok (realPath : String)
  | exitProcess (code : Nat)
  deriving DecidableEq, Repr

/-- `CodePack.validateInputPath` (lines 276-296). `realPath` is the
symlink-resolved absolute path, `pathExists`/`isDirectory` the answers of
`fs.existsSync`/`fs.statSync(...).isDirectory()`, `homedir` the answer of
`os.homedir()`. The restriction test is `realPath.startsWith(restricted)`
over the three system roots and `homedir + '/.ssh'`. -/
def validateInputPath (homedir realPath : String)
    (pathExists isDirectory : Bool) : ValidationResult :=
  if !pathExists then .exitProcess 1
  else if !isDirectory then .exitProcess 1
  else if (RESTRICTED_SYSTEM_PATHS ++ [homedir ++ "/.ssh"]).any
      (fun restricted => strStarts realPath restricted) then
    .exitProcess 1
  else .ok realPath

/-! ## Discovery and classification (`CodePack.getFiles`, lines 392-446) -/

/-- `isBinaryFile` (lines 447-458): extension denylist. -/
def isBinaryFile (ext : String) : Bool :=
  [".exe", ".dll", ".so", ".dylib", ".a", ".lib",
   ".jpg", ".jpeg", ".png", ".gif", ".ico", ".svg", ".webp", ".bmp",
   ".zip", ".tar", ".gz", ".rar", ".7z",
   ".pdf", ".doc", ".docx", ".xls", ".xlsx",
   ".mp3", ".mp4", ".avi", ".mov", ".wmv",
   ".ttf", ".woff", ".woff2", ".eot",
   ".bin", ".dat", ".db", ".sqlite"].contains ext

/-- The well-known configuration filenames of `isSourceFile` (lines 460-466). -/
def configFileNames : List String :=
  ["package.json", "tsconfig.json", "webpack.config.js", "babel.config.js",
   "tailwind.config.js", "next.config.js", "vite.config.js", "rollup.config.js",
   "jest.config.js", "eslint.config.js", ".eslintrc.js", ".eslintrc.json",
   "prettier.config.js", ".prettierrc", "docker-compose.yml", "Dockerfile",
   "README.md", "CLAUDE.md", "CONTRIBUTING.md", "LICENSE", ".gitignore"]

/-- The source-code extension allowlist of `isSourceFile` (lines 467-476). -/
def sourceExtensions : List String :=
  [".js", ".jsx", ".ts", ".tsx", ".vue", ".svelte",
   ".py", ".java", ".go", ".rs", ".rb", ".php",
   ".c", ".cpp", ".h", ".hpp", ".cs",
   ".html", ".css", ".scss", ".sass", ".less",
   ".json", ".xml", ".yml", ".yaml", ".toml",
   ".sql", ".graphql", ".proto",
   ".sh", ".bash", ".zsh", ".fish",
   ".txt", ".env.example"]

/-- `isSourceFile` (lines 459-482). -/
def isSourceFile (ext filename : String) : Bool :=
  let baseName := basename filename
  if configFileNames.contains baseName then true
  else if sourceExtensions.contains ext then true
  else if ext = "" && ["Dockerfile", "Makefile", "Rakefile"].contains baseName
    then true
  else false

/-- A skipped-files entry (`this.skippedFiles.push({ name: file, size: sizeKB })`,
line 435). -/
structure SkippedFile where
  name : String
  size : Nat
  deriving DecidableEq, Repr

/-- The filesystem/run environment `getFiles` consults per candidate file:
the parsed `.gitignore` filter (an abstract predicate — the `ignore` package
is third-party), and `fs.statSync`, which either yields a size in bytes or
throws with a message. -/
structure DiscoveryEnv where
  gitignored : String → Bool
  statSize : String → Except String Nat

/-- The secondary substring filter of lines 417-425 applied to the
lowercased path. -/
def isVirtualEnvPath (file : String) : Bool :=
  let filePath := jsToLower file
  strHasSub filePath "/venv/" || strHasSub filePath "/env/" ||
  strHasSub filePath "/.venv/" || strHasSub filePath "/virtualenv/" ||
  strHasSub filePath "/site-packages/" || strHasSub filePath "/__pycache__/" ||
  strHasSub filePath "/node_modules/"

/-- One step of the `files.filter` body (lines 412-445): decides whether
`file` is kept, and what it contributes to `skippedFiles` / `errors`. -/
inductive FilterOutcome where
  | keep
  | drop
  | skipLarge (entry : SkippedFile)
  | statError (message : String)
  deriving DecidableEq, Repr

/-- The body of the `files.filter` callback (lines 412-445), for one file.
`maxFileSize` is the per-file ceiling in bytes. `Math.round(stats.size/1024)`
is exact for integer sizes (division by 2^10, round half up), hence
`(size + 512) / 1024`. -/
def filterStep (env : DiscoveryEnv) (maxFileSize : Nat) (file : String) :
    FilterOutcome :=
  if env.gitignored file then .drop
  else if isVirtualEnvPath file then .drop
  else
    let ext := jsToLower (extname file)
    if isBinaryFile ext then .drop
    else if !isSourceFile ext file then .drop
    else
      match env.statSize file with
      | .ok size =>
          if size > maxFileSize then
            .skipLarge ⟨file, (size + 512) / 1024⟩
          else .keep
      | .error msg => .statError ("Cannot access file " ++ file ++ ": " ++ msg)

/-- Result of running `getFiles`' filter over the glob candidates:
the included files plus the `skippedFiles` and `errors` side effects,
in traversal order. -/
structure DiscoveryResult where
  included : List String
  skippedFiles : List SkippedFile
  errors : List String
  deriving DecidableEq, Repr

/-- `getFiles`' filter pass (lines 412-445) over the candidate list produced
by glob, accumulating `skippedFiles` and `errors` in order. -/
def runFilter (env : DiscoveryEnv) (maxFileSize : Nat) :
    List String → DiscoveryResult
  | [] => ⟨[], [], []⟩
  | f :: fs =>
      let rest := runFilter env maxFileSize fs
      match filterStep env maxFileSize f with
      | .keep => ⟨f :: rest.included, rest.skippedFiles, rest.errors⟩
      | .drop => rest
      | .skipLarge e => ⟨rest.included, e :: rest.skippedFiles, rest.errors⟩
      | .statError m => ⟨rest.included, rest.skippedFiles, m :: rest.errors⟩

/-- Does any component of the (root-relative, `/`-separated) path start
with a dot? -/
def hasDotComponent (p : String) : Bool :=
  (pathParts p).any (fun comp => strStarts comp ".")

/-- The glob enumeration of lines 401-411: `glob('**/*', { cwd, ignore,
nodir: true, dot: false })`. `tree` is the set of file paths under the
root; `excluded` abstracts the expanded `ignorePatterns` match. With
`dot: false`, glob's wildcards do not match entries whose name begins
with a dot, so any path with a dot-led component is absent from the
result. -/
def globFiles (tree : List String) (excluded : String → Bool) : List String :=
  tree.filter (fun p => !hasDotComponent p && !excluded p)

/-- `CodePack.getFiles` (lines 392-446): glob enumeration followed by the
filter pass. -/
def getFiles (env : DiscoveryEnv) (maxFileSize : Nat) (tree : List String)
    (excluded : String → Bool) : DiscoveryResult :=
  runFilter env maxFileSize (globFiles tree excluded)

/-! ## Prioritizer (`CodePack.prioritizeFiles`, lines 1305-1338) -/

/-- Three-way comparison on `Nat`, the sign of the JS subtraction
`aPriority - bPriority` used by the comparator. -/
def natCompare (m n : Nat) : Ordering :=
  if m < n then .lt else if m = n then .eq else .gt

/-- Lexicographic composition of comparison results. -/
def lexComp (o₁ o₂ : Ordering) : Ordering :=
  match o₁ with
  | .eq => o₂
  | o => o

/-- The `priority` table of well-known basenames (lines 1306-1316);
unknown basenames get 100. -/
def priorityRank (baseName : String) : Nat :=
  if baseName = "README.md" then 1
  else if baseName = "package.json" then 2
  else if baseName = "tsconfig.json" then 3
  else if ["index.js", "index.ts", "main.js", "main.ts",
           "app.js", "app.ts"].contains baseName then 4
  else 100

/-- The `extPriority` table (lines 1327-1330); unknown extensions get 10. -/
def extRank (ext : String) : Nat :=
  if ext = ".json" then 1
  else if ext = ".js" then 2
  else if ext = ".ts" then 3
  else if ext = ".jsx" then 4
  else if ext = ".tsx" then 5
  else if ext = ".css" then 6
  else if ext = ".scss" then 7
  else if ext = ".md" then 8
  else if ext = ".txt" then 9
  else 10

/-- Code-point lexicographic comparison of character lists. This models
`a.localeCompare(b)` (line 1336); the default-locale collation agrees with
code-point order on the ASCII path names at issue. -/
def listCompare : List Char → List Char → Ordering
  | [], [] => .eq
  | [], _ :: _ => .lt
  | _ :: _, [] => .gt
  | c :: cs, d :: ds => lexComp (natCompare c.toNat d.toNat) (listCompare cs ds)

/-- `a.localeCompare(b)` (line 1336), modelled as lexicographic
comparison. -/
def localeCompare (a b : String) : Ordering := listCompare a.toList b.toList

/-- The comparator passed to `files.sort` (lines 1317-1337): basename
priority rank, then extension rank, then `localeCompare`. -/
def prioCompare (a b : String) : Ordering :=
  lexComp (natCompare (priorityRank (basename a)) (priorityRank (basename b)))
    (lexComp (natCompare (extRank (extname a)) (extRank (extname b)))
      (localeCompare a b))

/-- The weak relation the sort uses: `comparator(a, b) <= 0`. -/
def prioLE (a b : String) : Prop := prioCompare a b ≠ .gt

instance : DecidableRel prioLE := fun _ _ => inferInstanceAs (Decidable (_ ≠ _))

/-- `CodePack.prioritizeFiles` (lines 1305-1338): `files.sort(comparator)`.
The comparator never returns 0 for distinct paths, so JS `sort` produces
the unique sorted permutation, here realized by insertion sort. -/
def prioritizeFiles (files : List String) : List String :=
  files.insertionSort prioLE

/-- A concrete discovery environment for witnesses: nothing gitignored,
`bad.js` fails to stat, every other file is 614400 bytes (600 KB). -/
def witnessEnv : DiscoveryEnv :=
  ⟨fun _ => false,
   fun f => if f = "bad.js" then .error "EACCES" else .ok 614400⟩

/-! ## UTF-8 byte length (`Buffer.byteLength(output, 'utf8')`) -/

/-- UTF-8 encoding of one character, as a list of byte values. -/
def utf8Char (c : Char) : List Nat :=
  let n := c.toNat
  if n < 0x80 then [n]
  else if n < 0x800 then [0xc0 + n / 64, 0x80 + n % 64]
  else if n < 0x10000 then
    [0xe0 + n / 4096, 0x80 + (n / 64) % 64, 0x80 + n % 64]
  else
    [0xf0 + n / 262144, 0x80 + (n / 4096) % 64, 0x80 + (n / 64) % 64,
     0x80 + n % 64]

/-- UTF-8 encoding of a string, as a list of byte values. -/
def utf8Str (s : String) : List Nat :=
  (s.toList.map utf8Char).flatten

/-- `Buffer.byteLength(s, 'utf8')` (src/index.js lines 314, 1503). -/
def utf8Len (s : String) : Nat := (utf8Str s).length

/-! ## Output orchestration (`CodePack.compress`, lines 297-373, and
`CodePack.generateAllFormats`, lines 1478-1595) -/

/-- The nine output strategies (the strategy classes of lines 115-159). -/
inductive OutputFormat where
  | markdown | json | yaml | toml | msgpack | mdyaml | dsl | jsonld | mdopt
  deriving DecidableEq, Repr

/-- `OUTPUT_FORMATS` (line 35). -/
def OUTPUT_FORMATS : List String :=
  ["markdown", "json", "yaml", "toml", "msgpack", "mdyaml", "dsl", "jsonld",
   "mdopt"]

/-- `OutputStrategyFactory.createStrategy` (lines 160-179): the `strategies`
tag-to-class map; an unrecognized tag throws `Unsupported output format`
(modelled as `none`). -/
def createStrategy (format : String) : Option OutputFormat :=
  if format = "markdown" then some .markdown
  else if format = "json" then some .json
  else if format = "yaml" then some .yaml
  else if format = "toml" then some .toml
  else if format = "msgpack" then some .msgpack
  else if format = "mdyaml" then some .mdyaml
  else if format = "dsl" then some .dsl
  else if format = "jsonld" then some .jsonld
  else if format = "mdopt" then some .mdopt
  else none

/-- Fatal run errors of the orchestrator. -/
inductive RunError where
  | unsupportedFormat (format : String)
  | outputTooLarge
  deriving DecidableEq, Repr

/-- Observable events of a run, in order: discovery completing (the
`getFiles` call with its directory enumeration and per-file stats),
a strategy producing a document, a file write, a per-strategy failure in an
all-formats run, or a fatal abort. -/
inductive RunEvent where
  | discovery (files : List String)
  | generated (format : OutputFormat) (output : String)
  | wrote (path : String) (output : String)
  | strategyFailed (format : OutputFormat) (message : String)
  | fatal (error : RunError)
  deriving DecidableEq, Repr

/-- The single-format path of `CodePack.compress` (lines 297-373) as an
event trace: `getFiles` runs first (line 303); the strategy is created by
`generateOutputByFormat` via `CompressionCommand.execute` (lines 312-313,
545-548), throwing `Unsupported output format` for an unrecognized tag;
then the document is generated, its byte length compared against
`this.totalSizeLimit` (lines 314-318) with a fatal `Output too large` abort
before any write; then dry-run returns without writing (lines 319-333), and
otherwise the output file is written (lines 335-336). `gen` is the selected
strategy's document generator. -/
def compressSingle (format : String) (files : List String)
    (gen : OutputFormat → String) (totalSizeLimit : Nat) (dryRun : Bool)
    (outputPath : String) : List RunEvent :=
  .discovery files ::
    match createStrategy format with
    | none => [.fatal (.unsupportedFormat format)]
    | some fmt =>
        let output := gen fmt
        if utf8Len output > totalSizeLimit then
          [.generated fmt output, .fatal .outputTooLarge]
        else if dryRun then [.generated fmt output]
        else [.generated fmt output, .wrote outputPath output]

/-- The `formats` table of `generateAllFormats` (lines 1479-1489), in order. -/
def allFormatsList : List OutputFormat :=
  [.markdown, .json, .yaml, .toml, .msgpack, .mdyaml, .dsl, .jsonld, .mdopt]

/-- The output extension per format in `generateAllFormats`
(lines 1479-1489). -/
def formatExt : OutputFormat → String
  | .markdown => "md"
  | .json => "json"
  | .yaml => "yaml"
  | .toml => "toml"
  | .msgpack => "msgpack.txt"
  | .mdyaml => "frontmatter.md"
  | .dsl => "dsl.txt"
  | .jsonld => "jsonld.json"
  | .mdopt => "optimized.md"

/-- The per-format loop of `CodePack.generateAllFormats` (lines 1494-1537)
as an event trace. Each strategy's generation is wrapped in a `try`/`catch`
(a failure is recorded as that format's result without aborting the rest);
on success the document's byte length is computed (line 1503) only to be
summed and reported, and — unless this is a dry run — the document is
written unconditionally (lines 1515-1516): there is no comparison against
`this.totalSizeLimit` anywhere in this loop. `gen` maps a format to its
generated document or thrown error. -/
def generateAllFormats (gen : OutputFormat → Except String String)
    (dryRun : Bool) (baseOutputPath : String) : List RunEvent :=
  (allFormatsList.map (fun fmt =>
    match gen fmt with
    | .ok output =>
        let outputPath := baseOutputPath ++ "." ++ formatExt fmt
        if dryRun then [.generated fmt output]
        else [.generated fmt output, .wrote outputPath output]
    | .error msg => [.strategyFailed fmt msg])).flatten

/-! ## Per-strategy file processing (content loading) -/

/-- A file entry of a document body: the path and the content the strategy
embeds for it. -/
structure ProcessedEntry where
  path : String
  content : String
  deriving DecidableEq, Repr

/-- The shared per-file read loop of the recording strategies
(`generateJSONOutput` lines 486-510, `generateYAMLOutput` lines 552-576,
`generateTOMLOutput` lines 618-641, `generateMarkdownYAMLOutput` lines
803-819, `generateDSLOutput` lines 825-844, `generateJSONLDOutput` lines
870-894, `generateOptimizedMarkdownOutput` lines 954-967, `generateOutput`
lines 1020-1037, `generateCompactOutput` lines 1049-1062): a read failure
appends `Cannot read file <file>: <message>` to `this.errors` and omits
the file from the document body; the loop continues. -/
def processFilesRecording (reads : String → Except String String) :
    List String → List ProcessedEntry × List String
  | [] => ([], [])
  | f :: fs =>
      match reads f with
      | .ok c =>
          let r := processFilesRecording reads fs
          (⟨f, c⟩ :: r.1, r.2)
      | .error m =>
          let r := processFilesRecording reads fs
          (r.1, ("Cannot read file " ++ f ++ ": " ++ m) :: r.2)

/-- The per-file read loop of `generateSmartOutput` (lines 1082-1095),
applied to the files of each purpose group in order: a read failure only
prints a verbose log (`Skipping unreadable file`) — nothing is appended to
`this.errors` — and the file is omitted; the loop continues. -/
def processFilesSmart (reads : String → Except String String) :
    List String → List ProcessedEntry × List String
  | [] => ([], [])
  | f :: fs =>
      match reads f with
      | .ok c =>
          let r := processFilesSmart reads fs
          (⟨f, c⟩ :: r.1, r.2)
      | .error _ => processFilesSmart reads fs

/-! ## Content transforms (`CodePack.optimizeContent`, lines 1065-1073, and
`CodePack.optimizeContentForSize`, lines 990-999)

Each JS regex replace is translated into an executable scanner with the
same semantics (leftmost match, greedy with backtracking, `g`/`m` flags as
in the source); recursion that is not structural uses explicit fuel, with
`length + 1` supplied at the wrapper. -/

/-- Pass `replace(/\n\s*\n\s*\n/g, '\n\n')` (line 1067). A match can only
start at a `'\n'`; at such a position, with `w` the maximal `\s`-run
starting there, the pattern matches iff `w` contains at least three
newlines, and the greedy match then spans from the start of `w` through its
last newline. Replacement is two newlines; scanning resumes after the
match, so the (newline-free) whitespace tail of the run is copied. -/
def collapseRunsF : Nat → List Char → List Char
  | 0, l => l
  | _ + 1, [] => []
  | fuel + 1, c :: rest =>
      if c = '\n' then
        if 3 ≤ (c :: rest.takeWhile isWs).count '\n' then
          let w := c :: rest.takeWhile isWs
          let tailWs := (w.reverse.takeWhile (fun x => ¬ x = '\n')).reverse
          '\n' :: '\n' :: (tailWs ++ collapseRunsF fuel (rest.dropWhile isWs))
        else c :: collapseRunsF fuel rest
      else c :: collapseRunsF fuel rest

/-- Pass `replace(/^\s+$/gm, '')` (line 1068). A match starts at a line
start (`atStart`) on a whitespace character; with `w` the maximal `\s`-run
from there, the greedy match is the longest prefix of `w` whose end sits
at a `$` position: the whole run when it reaches the end of the string,
otherwise up to the last `'\n'` inside `w` (which must lie at offset ≥ 1).
The matched prefix is deleted; scanning resumes at the match end, where
`^` holds iff the previous original character was a newline. -/
def stripWsLinesF : Nat → Bool → List Char → List Char
  | 0, _, l => l
  | _ + 1, _, [] => []
  | fuel + 1, atStart, c :: rest =>
      if atStart && isWs c then
        if (rest.dropWhile isWs).isEmpty then []
        else if (rest.takeWhile isWs).contains '\n' then
          let w := c :: rest.takeWhile isWs
          let t := (w.reverse.takeWhile (fun x => ¬ x = '\n')).length
          let j := w.length - 1 - t
          stripWsLinesF fuel
            (decide ((w.take j).getLast? = some '\n'))
            (w.drop j ++ rest.dropWhile isWs)
        else c :: stripWsLinesF fuel (c = '\n') rest
      else c :: stripWsLinesF fuel (c = '\n') rest

/-- Drop a maximal `[ \t]` suffix (the action of `[ \t]+$` on one line). -/
def stripBlanksEnd (line : List Char) : List Char :=
  (line.reverse.dropWhile isBlank).reverse

/-- Pass `replace(/[ \t]+$/gm, '')` (line 1069): in multiline mode `$`
matches before each `'\n'` and at the end of the string, so each
newline-delimited line loses its maximal space/tab suffix. -/
def stripTrailingBlanks (l : List Char) : List Char :=
  (List.intercalate ['\n'] ((splitOnChar '\n' l).map stripBlanksEnd))

/-- The suffix after the first `*/` of a list, if any. -/
def findCloser : List Char → Option (List Char)
  | [] => none
  | c :: rest =>
      if c = '*' ∧ rest.head? = some '/' then some rest.tail
      else findCloser rest

/-- Pass `replace(/\/\*[\s\S]*?\*\//g, '')` (line 1070): a lazily-matched
block comment runs from each `/*` to the first following `*/`; with no
closer remaining, no further match is possible anywhere. -/
def stripBlockCommentsF : Nat → List Char → List Char
  | 0, l => l
  | _ + 1, [] => []
  | fuel + 1, c :: rest =>
      if c = '/' ∧ rest.head? = some '*' then
        match findCloser rest.tail with
        | some after => stripBlockCommentsF fuel after
        | none => c :: rest
      else c :: stripBlockCommentsF fuel rest

/-- Characters `.` does not match in a JS regex (other than `'\n'`, which
cannot occur inside a split line): `'\r'` and the Unicode line
separators. -/
def isBadDot (c : Char) : Bool :=
  c = '\r' || c = Char.ofNat 0x2028 || c = Char.ofNat 0x2029

/-- Index of the first `//` occurrence. -/
def firstSlashSlash : List Char → Option Nat
  | [] => none
  | c :: rest =>
      if c = '/' ∧ rest.head? = some '/' then some 0
      else (firstSlashSlash rest).map (· + 1)

/-- The action of `//.*$` on one newline-delimited line: `.` cannot match
carriage returns or Unicode line separators and `$` only matches before a
`'\n'` or at the end, so the leftmost viable `//` is the first one after
the last such character; everything from it to the line end is deleted. -/
def stripLineCommentLine (line : List Char) : List Char :=
  let good := (line.reverse.takeWhile (fun c => !isBadDot c)).reverse
  let pre := line.take (line.length - good.length)
  match firstSlashSlash good with
  | some i => pre ++ good.take i
  | none => line

/-- Pass `replace(/\/\/.*$/gm, '')` (line 1071). -/
def stripLineComments (l : List Char) : List Char :=
  (List.intercalate ['\n'] ((splitOnChar '\n' l).map stripLineCommentLine))

/-- `String.prototype.trim` (line 1072): whitespace removed from both
ends. -/
def jsTrim (l : List Char) : List Char :=
  ((l.dropWhile isWs).reverse.dropWhile isWs).reverse

/-- `CodePack.optimizeContent` (lines 1065-1073): the six replaces in
source order — newline-run collapse, whitespace-only line removal,
trailing-blank removal, block-comment removal, line-comment removal,
trim. -/
def optimizeContent (s : String) : String :=
  let l₁ := collapseRunsF (s.toList.length + 1) s.toList
  let l₂ := stripWsLinesF (l₁.length + 1) true l₁
  let l₃ := stripTrailingBlanks l₂
  let l₄ := stripBlockCommentsF (l₃.length + 1) l₃
  let l₅ := stripLineComments l₄
  String.mk (jsTrim l₅)

/-- Pass `replace(/\n{3,}/g, '\n\n')` (line 995 of
`optimizeContentForSize`): literal runs of three or more newlines collapse
to exactly two. -/
def collapseHardNewlinesF : Nat → List Char → List Char
  | 0, l => l
  | _ + 1, [] => []
  | fuel + 1, c :: rest =>
      if c = '\n' then
        let run := c :: rest.takeWhile (fun x => x = '\n')
        if 3 ≤ run.length then
          '\n' :: '\n' :: collapseHardNewlinesF fuel (rest.drop (run.length - 1))
        else c :: collapseHardNewlinesF fuel rest
      else c :: collapseHardNewlinesF fuel rest

/-- Pass `replace(/\s+/g, ' ')` (line 997): every maximal whitespace run
becomes a single space. -/
def collapseAllWsF : Nat → List Char → List Char
  | 0, l => l
  | _ + 1, [] => []
  | fuel + 1, c :: rest =>
      if isWs c then ' ' :: collapseAllWsF fuel (rest.dropWhile isWs)
      else c :: collapseAllWsF fuel rest

/-- `CodePack.optimizeContentForSize` (lines 990-999), the transform the
optimized-markdown strategy always applies: block comments, line comments,
whitespace-only lines (`/^\s*$/gm` — its nonzero-length matches coincide
with `/^\s+$/gm`, zero-length matches replace nothing), hard newline runs,
trailing blanks, all-whitespace collapse, trim. -/
def optimizeContentForSize (s : String) : String :=
  let l₁ := stripBlockCommentsF (s.toList.length + 1) s.toList
  let l₂ := stripLineComments l₁
  let l₃ := stripWsLinesF (l₂.length + 1) true l₂
  let l₄ := collapseHardNewlinesF (l₃.length + 1) l₃
  let l₅ := stripTrailingBlanks l₄
  let l₆ := collapseAllWsF (l₅.length + 1) l₅
  String.mk (jsTrim l₆)

/-! ## Per-strategy embedded content (claim C2)

What each strategy embeds for a file with raw content `raw`, translated
from the content expression at each strategy's own read site. -/

/-- `generateJSONOutput` (line 500): `this.compact ?
this.optimizeContent(content) : content`. -/
def jsonFileContent (compact : Bool) (raw : String) : String :=
  if compact then optimizeContent raw else raw

/-- `generateYAMLOutput` (line 566). -/
def yamlFileContent (compact : Bool) (raw : String) : String :=
  if compact then optimizeContent raw else raw

/-- `generateTOMLOutput` (line 632). -/
def tomlFileContent (compact : Bool) (raw : String) : String :=
  if compact then optimizeContent raw else raw

/-- `generateMessagePackOutput` (line 676) re-encodes the plain-JSON
document, so it embeds exactly the JSON strategy's content. -/
def msgpackFileContent (compact : Bool) (raw : String) : String :=
  jsonFileContent compact raw

/-- `generateDSLOutput` (line 836). -/
def dslFileContent (compact : Bool) (raw : String) : String :=
  if compact then optimizeContent raw else raw

/-- `generateJSONLDOutput` (line 884). -/
def jsonldFileContent (compact : Bool) (raw : String) : String :=
  if compact then optimizeContent raw else raw

/-- `generateMarkdownYAMLOutput` body (lines 808-815): the markdown body
re-reads the file and embeds the raw content unconditionally — the
compact-transformed `processedFiles` array is used only for counts and
never serialized. -/
def mdyamlBodyContent (raw : String) : String := raw

/-- `generateOptimizedMarkdownOutput` (lines 959-960): always applies
`optimizeContentForSize`, regardless of the run's mode. -/
def mdoptContent (raw : String) : String := optimizeContentForSize raw

/-! ## Normal-form checks for the compact normalization (claim C4) -/

/-- No whitespace run contains three or more newlines (checked at every
newline position, mirroring where the newline-collapse pass can match). -/
def noTripleRun : List Char → Bool
  | [] => true
  | c :: rest =>
      (if c = '\n' then ((c :: rest.takeWhile isWs).count '\n') < 3
       else true) && noTripleRun rest

/-- No position admits a match of the whitespace-only-line pass: at every
line start carrying whitespace, the whitespace stretch from there neither
reaches the end of the string nor contains a further newline. -/
def noBlankMatch : Bool → List Char → Bool
  | _, [] => true
  | atStart, c :: rest =>
      (if atStart && isWs c then
        !(rest.dropWhile isWs).isEmpty && !(rest.takeWhile isWs).contains '\n'
       else true) && noBlankMatch (c = '\n') rest

/-- No newline-delimited line ends in a space or tab. -/
def noTrailingBlank (l : List Char) : Bool :=
  (splitOnChar '\n' l).all (fun line =>
    match line.getLast? with
    | some c => !isBlank c
    | none => true)

/-- Neither end of the string carries whitespace. -/
def trimmedStr (l : List Char) : Bool :=
  (match l.head? with
   | some c => !isWs c
   | none => true) &&
  (match l.getLast? with
   | some c => !isWs c
   | none => true)

/-- Outputs in this form are fixed points of `optimizeContent`: no
three-newline whitespace run, no whitespace-only line stretch, no trailing
blanks, trimmed ends, no block-comment opener, and no line-comment marker
on any line. -/
def isNormalForm (s : String) : Bool :=
  noTripleRun s.toList && noBlankMatch true s.toList &&
  noTrailingBlank s.toList && trimmedStr s.toList &&
  !listHasSub ['/', '*'] s.toList &&
  (splitOnChar '\n' s.toList).all (fun line => !listHasSub ['/', '/'] line)

/-! ## JSON value model (claim C3)

The plain value universe of `JSON.parse(JSON.stringify(x))` for the objects
this program builds: strings, non-negative integers, booleans, arrays and
insertion-ordered objects. Strings are carried as their UTF-8 byte lists
(object keys likewise), which is also what the MessagePack encoding
transports. The spine is a mutual inductive so that all functions are
structural and kernel-evaluable. -/

mutual
inductive JVal where
  | str (bytes : List Nat)
  | num (n : Nat)
  | bool (b : Bool)
  | arr (items : JArr)
  | obj (fields : JObj)
inductive JArr where
  | nil
  | cons (v : JVal) (rest : JArr)
inductive JObj where
  | nil
  | cons (key : List Nat) (v : JVal) (rest : JObj)
end

def JArr.length : JArr → Nat
  | .nil => 0
  | .cons _ rest => JArr.length rest + 1

def JObj.length : JObj → Nat
  | .nil => 0
  | .cons _ _ rest => JObj.length rest + 1

def JArr.ofList : List JVal → JArr
  | [] => .nil
  | v :: rest => .cons v (JArr.ofList rest)

def JObj.ofList : List (List Nat × JVal) → JObj
  | [] => .nil
  | (k, v) :: rest => .cons k v (JObj.ofList rest)

/-- A JSON string value from a Lean string. -/
def jstr (s : String) : JVal := .str (utf8Str s)

/-- A JSON object from string-keyed fields, in insertion order. -/
def jobj (fields : List (String × JVal)) : JVal :=
  .obj (JObj.ofList (fields.map (fun p => (utf8Str p.1, p.2))))

/-- A JSON array. -/
def jarr (items : List JVal) : JVal := .arr (JArr.ofList items)

/-- A JSON array of strings. -/
def jstrArr (items : List String) : JVal := jarr (items.map jstr)

mutual
def JVal.size : JVal → Nat
  | .str _ => 1
  | .num _ => 1
  | .bool _ => 1
  | .arr a => 1 + JArr.size a
  | .obj o => 1 + JObj.size o
def JArr.size : JArr → Nat
  | .nil => 1
  | .cons v rest => 1 + JVal.size v + JArr.size rest
def JObj.size : JObj → Nat
  | .nil => 1
  | .cons _ v rest => 1 + JVal.size v + JObj.size rest
end

/-! Well-formedness for serialization: numbers below 2^64 (the widest
MessagePack unsigned integer), string/array/object lengths below 2^32
(the widest length header), and string bytes below 256. -/
mutual
def JVal.wf : JVal → Bool
  | .str bs =>
      decide (bs.length < 4294967296) && bs.all (fun b => decide (b < 256))
  | .num n => decide (n < 18446744073709551616)
  | .bool _ => true
  | .arr a => decide (JArr.length a < 4294967296) && JArr.wf a
  | .obj o => decide (JObj.length o < 4294967296) && JObj.wf o
def JArr.wf : JArr → Bool
  | .nil => true
  | .cons v rest => JVal.wf v && JArr.wf rest
def JObj.wf : JObj → Bool
  | .nil => true
  | .cons k v rest =>
      (decide (k.length < 4294967296) && k.all (fun b => decide (b < 256))) &&
      JVal.wf v && JObj.wf rest
end

/-! ## MessagePack encoding (the `msgpack5` wire format)

`generateMessagePackOutput` (line 677) hands the parsed JSON document to
`msgpack.encode`. The relevant subset of the MessagePack specification:
positive fixint / uint8-64, fixstr / str8-32, fixarray / array16-32,
fixmap / map16-32, and booleans, all length/value headers big-endian. -/

/-- `k` bytes of `n`, big-endian. -/
def natBE : Nat → Nat → List Nat
  | 0, _ => []
  | k + 1, n => natBE k (n / 256) ++ [n % 256]

/-- MessagePack encoding of an unsigned integer. -/
def msgpackNat (n : Nat) : List Nat :=
  if n < 128 then [n]
  else if n < 256 then [0xcc, n]
  else if n < 65536 then 0xcd :: natBE 2 n
  else if n < 4294967296 then 0xce :: natBE 4 n
  else 0xcf :: natBE 8 n

/-- MessagePack string header for a byte length. -/
def msgpackStrHeader (len : Nat) : List Nat :=
  if len < 32 then [0xa0 + len]
  else if len < 256 then [0xd9, len]
  else if len < 65536 then 0xda :: natBE 2 len
  else 0xdb :: natBE 4 len

/-- MessagePack array header. -/
def msgpackArrHeader (len : Nat) : List Nat :=
  if len < 16 then [0x90 + len]
  else if len < 65536 then 0xdc :: natBE 2 len
  else 0xdd :: natBE 4 len

/-- MessagePack map header. -/
def msgpackMapHeader (len : Nat) : List Nat :=
  if len < 16 then [0x80 + len]
  else if len < 65536 then 0xde :: natBE 2 len
  else 0xdf :: natBE 4 len

mutual
def msgpackEncode : JVal → List Nat
  | .str bs => msgpackStrHeader bs.length ++ bs
  | .num n => msgpackNat n
  | .bool b => [if b then 0xc3 else 0xc2]
  | .arr a => msgpackArrHeader (JArr.length a) ++ msgpackEncodeArr a
  | .obj o => msgpackMapHeader (JObj.length o) ++ msgpackEncodeObj o
def msgpackEncodeArr : JArr → List Nat
  | .nil => []
  | .cons v rest => msgpackEncode v ++ msgpackEncodeArr rest
def msgpackEncodeObj : JObj → List Nat
  | .nil => []
  | .cons k v rest =>
      msgpackStrHeader k.length ++ k ++ msgpackEncode v ++ msgpackEncodeObj rest
end

/-- Read `k` big-endian bytes into an accumulator. -/
def readBEAux (acc : Nat) : Nat → List Nat → Option (Nat × List Nat)
  | 0, l => some (acc, l)
  | _ + 1, [] => none
  | k + 1, b :: rest => readBEAux (acc * 256 + b) k rest

/-- Take exactly `k` payload bytes. -/
def readBytes (k : Nat) (l : List Nat) : Option (List Nat × List Nat) :=
  if k ≤ l.length then some (l.take k, l.drop k) else none

mutual
def msgpackDecode : Nat → List Nat → Option (JVal × List Nat)
  | 0, _ => none
  | _ + 1, [] => none
  | f + 1, b :: rest =>
      if b < 128 then some (.num b, rest)
      else if b < 0x90 then
        (msgpackDecodeObj f (b - 0x80) rest).map
          (fun p => (JVal.obj p.1, p.2))
      else if b < 0xa0 then
        (msgpackDecodeArr f (b - 0x90) rest).map
          (fun p => (JVal.arr p.1, p.2))
      else if b < 0xc0 then
        (readBytes (b - 0xa0) rest).map (fun p => (JVal.str p.1, p.2))
      else if b = 0xc2 then some (.bool false, rest)
      else if b = 0xc3 then some (.bool true, rest)
      else if b = 0xcc then
        rest.head?.map (fun n => (JVal.num n, rest.tail))
      else if b = 0xcd then
        (readBEAux 0 2 rest).map (fun p => (JVal.num p.1, p.2))
      else if b = 0xce then
        (readBEAux 0 4 rest).map (fun p => (JVal.num p.1, p.2))
      else if b = 0xcf then
        (readBEAux 0 8 rest).map (fun p => (JVal.num p.1, p.2))
      else if b = 0xd9 then
        rest.head?.bind (fun len =>
          (readBytes len rest.tail).map (fun p => (JVal.str p.1, p.2)))
      else if b = 0xda then
        (readBEAux 0 2 rest).bind (fun p =>
          (readBytes p.1 p.2).map (fun q => (JVal.str q.1, q.2)))
      else if b = 0xdb then
        (readBEAux 0 4 rest).bind (fun p =>
          (readBytes p.1 p.2).map (fun q => (JVal.str q.1, q.2)))
      else if b = 0xdc then
        (readBEAux 0 2 rest).bind (fun p =>
          (msgpackDecodeArr f p.1 p.2).map (fun q => (JVal.arr q.1, q.2)))
      else if b = 0xdd then
        (readBEAux 0 4 rest).bind (fun p =>
          (msgpackDecodeArr f p.1 p.2).map (fun q => (JVal.arr q.1, q.2)))
      else if b = 0xde then
        (readBEAux 0 2 rest).bind (fun p =>
          (msgpackDecodeObj f p.1 p.2).map (fun q => (JVal.obj q.1, q.2)))
      else if b = 0xdf then
        (readBEAux 0 4 rest).bind (fun p =>
          (msgpackDecodeObj f p.1 p.2).map (fun q => (JVal.obj q.1, q.2)))
      else none
def msgpackDecodeArr : Nat → Nat → List Nat → Option (JArr × List Nat)
  | 0, _, _ => none
  | _ + 1, 0, l => some (.nil, l)
  | f + 1, n + 1, l =>
      (msgpackDecode f l).bind (fun p =>
        (msgpackDecodeArr f n p.2).map (fun q => (JArr.cons p.1 q.1, q.2)))
def msgpackDecodeObj : Nat → Nat → List Nat → Option (JObj × List Nat)
  | 0, _, _ => none
  | _ + 1, 0, l => some (.nil, l)
  | f + 1, n + 1, l =>
      (msgpackDecode f l).bind (fun p =>
        match p.1 with
        | .str k =>
            (msgpackDecode f p.2).bind (fun pv =>
              (msgpackDecodeObj f n pv.2).map (fun q =>
                (JObj.cons k pv.1 q.1, q.2)))
        | _ => none)
end

/-! ## Base64 (`Buffer.prototype.toString('base64')`, RFC 4648 with
padding) -/

/-- The base64 alphabet. -/
def b64Char (k : Nat) : Char :=
  if k < 26 then Char.ofNat (65 + k)
  else if k < 52 then Char.ofNat (97 + (k - 26))
  else if k < 62 then Char.ofNat (48 + (k - 52))
  else if k = 62 then '+'
  else '/'

/-- Inverse of the base64 alphabet. -/
def b64Val (c : Char) : Option Nat :=
  if 65 ≤ c.toNat ∧ c.toNat ≤ 90 then some (c.toNat - 65)
  else if 97 ≤ c.toNat ∧ c.toNat ≤ 122 then some (26 + (c.toNat - 97))
  else if 48 ≤ c.toNat ∧ c.toNat ≤ 57 then some (52 + (c.toNat - 48))
  else if c = '+' then some 62
  else if c = '/' then some 63
  else none

/-- Base64-encode a byte list, three bytes to four characters, with `=`
padding. -/
def base64EncodeL : List Nat → List Char
  | [] => []
  | [a] => [b64Char (a / 4), b64Char (a % 4 * 16), '=', '=']
  | [a, b] =>
      [b64Char (a / 4), b64Char (a % 4 * 16 + b / 16), b64Char (b % 16 * 4),
       '=']
  | a :: b :: c :: rest =>
      b64Char (a / 4) :: b64Char (a % 4 * 16 + b / 16) ::
        b64Char (b % 16 * 4 + c / 64) :: b64Char (c % 64) ::
        base64EncodeL rest

/-- `packed.toString('base64')` (line 678). -/
def base64Encode (bytes : List Nat) : String := String.mk (base64EncodeL bytes)

/-- Base64-decode, inverting `base64EncodeL`. -/
def base64DecodeL : List Char → Option (List Nat)
  | [] => some []
  | c1 :: c2 :: c3 :: c4 :: rest =>
      (b64Val c1).bind (fun d1 =>
        (b64Val c2).bind (fun d2 =>
          if c3 = '=' ∧ c4 = '=' ∧ rest = [] then some [d1 * 4 + d2 / 16]
          else
            (b64Val c3).bind (fun d3 =>
              if c4 = '=' ∧ rest = [] then
                some [d1 * 4 + d2 / 16, d2 % 16 * 16 + d3 / 4]
              else
                (b64Val c4).bind (fun d4 =>
                  (base64DecodeL rest).map (fun bs =>
                    (d1 * 4 + d2 / 16) :: (d2 % 16 * 16 + d3 / 4) ::
                      (d3 % 4 * 64 + d4) :: bs)))))
  | _ => none

/-- Decode a base64 string. -/
def base64Decode (s : String) : Option (List Nat) := base64DecodeL s.toList

/-! ## The parsed JSON document (claim C3)

`generateMessagePackOutput` (line 676) encodes
`JSON.parse(await this.generateJSONOutput(files))` with `msgpack.encode`
and embeds the result base64-encoded between the `MSGPACK_BASE64_START`
and `MSGPACK_BASE64_END` sentinels (lines 737-739). The parsed JSON
document is the `result` object of `generateJSONOutput` (lines 519-542)
after the `JSON.stringify` / `JSON.parse` round-trip: a `Date` serializes
to its ISO string and an `undefined` `description` property is dropped. -/

/-- `String.prototype.endsWith`. -/
def strEnds (s suf : String) : Bool := suf.toList.isSuffixOf s.toList

/-- `fs.readFile` + `fs.statSync` results for one file, as consumed by
`generateJSONOutput` (lines 491-492): content, byte size, and the mtime as
`JSON.stringify` serializes it (its ISO string). -/
structure FileStat where
  content : String
  size : Nat
  mtimeISO : String
  deriving Repr

/-- The run state `generateJSONOutput` reads: the resolved input path, the
options, the filesystem, and the `skippedFiles` / `errors` lists
accumulated by `getFiles` before generation. -/
structure JsonRunEnv where
  source : String
  compact : Bool
  smart : Bool
  maxFileSize : Nat
  respectGitignore : Bool
  reads : String → Except String FileStat
  skippedFiles : List SkippedFile
  errors0 : List String

/-- `detectTechnologies` (lines 1285-1296), pushes in source order. -/
def detectTechnologies (files : List String) : List String :=
  (if files.contains "package.json" then ["Node.js/JavaScript"] else []) ++
  (if files.any (fun f => strEnds f ".ts") then ["TypeScript"] else []) ++
  (if files.any (fun f => strEnds f ".py") then ["Python"] else []) ++
  (if files.any (fun f => strEnds f ".java") then ["Java"] else []) ++
  (if files.any (fun f => strEnds f ".go") then ["Go"] else []) ++
  (if files.any (fun f => strEnds f ".rs") then ["Rust"] else []) ++
  (if files.contains "Dockerfile" then ["Docker"] else []) ++
  (if files.any (fun f => strEnds f ".yml" || strEnds f ".yaml") then
    ["YAML Configuration"] else [])

/-- `analyzeProject` (lines 1128-1150) as a JSON value; key order is the
object-literal order. -/
def analyzeProject (files : List String) : JVal :=
  jobj
    [("architecture", jstr
        (if files.any (fun f => strHasSub f "pages/" || strHasSub f "app/")
          then "Next.js/React App"
         else if files.any (fun f => strHasSub f "src/components/") then
          "React SPA"
         else if files.any (fun f => strHasSub f "main.py" ||
            strHasSub f "app.py") then "Python Backend"
         else if files.any (fun f => strHasSub f "server.js") then
          "Node.js Server"
         else "Unknown")),
     ("technologies", jstrArr (detectTechnologies files)),
     ("patterns", jstrArr
        ((if files.any (fun f => strHasSub f "hooks/") then ["Custom Hooks"]
          else []) ++
         (if files.any (fun f => strHasSub f "api/") then ["API Routes"]
          else []) ++
         (if files.any (fun f => strHasSub f "models/") then ["Data Models"]
          else []) ++
         (if files.any (fun f => strHasSub f "utils/") then
          ["Utility Functions"] else []))),
     ("mainEntities", jarr [])]

/-- `getFileType` (lines 1339-1359). -/
def getFileType (filename content : String) : String :=
  let ext := extname filename
  let base := basename filename
  if base = "__init__.py" then
    if jsTrim content.toList = [] then "python_package_marker"
    else "python_package_init_with_code"
  else if ext = ".py" then "python_source"
  else if ext = ".js" then
    if strHasSub filename ".config." || strHasSub filename ".test." then
      "javascript_config"
    else "javascript_source"
  else if ext = ".ts" then "typescript_source"
  else if ext = ".tsx" then "react_typescript_component"
  else if ext = ".jsx" then "react_component"
  else if ext = ".json" then "json_config"
  else if ext = ".md" then "documentation"
  else if ext = ".yml" || ext = ".yaml" then "yaml_config"
  else if ext = ".css" then "stylesheet"
  else if ext = ".html" then "html_template"
  else "source_code"

/-- `getFileDescription` (lines 1360-1383): the table lookup, `undefined`
(here `none`) when the basename is not listed. -/
def getFileDescription (filename : String) : Option String :=
  let b := basename filename
  if b = "package.json" then some "Project dependencies and configuration"
  else if b = "tsconfig.json" then some "TypeScript configuration"
  else if b = "webpack.config.js" then some "Webpack build configuration"
  else if b = "babel.config.js" then
    some "Babel transpilation configuration"
  else if b = "tailwind.config.js" then some "Tailwind CSS configuration"
  else if b = "next.config.js" then some "Next.js configuration"
  else if b = "vite.config.js" then some "Vite build configuration"
  else if b = "jest.config.js" then some "Jest testing configuration"
  else if b = ".eslintrc.js" then
    some "ESLint code quality configuration"
  else if b = ".eslintrc.json" then
    some "ESLint code quality configuration"
  else if b = "prettier.config.js" then
    some "Prettier code formatting configuration"
  else if b = ".prettierrc" then
    some "Prettier code formatting configuration"
  else if b = "docker-compose.yml" then
    some "Docker multi-container configuration"
  else if b = "Dockerfile" then
    some "Docker container build instructions"
  else if b = "README.md" then
    some "Project documentation and setup instructions"
  else if b = "CHANGELOG.md" then some "Version history and changes"
  else if b = ".gitignore" then some "Git ignore patterns"
  else if b = "__init__.py" then
    some "Python package marker file (enables imports from this directory)"
  else none

/-- `path.basename(file) === '__init__.py' && stats.size === 0`
(line 494). -/
def isEmptyInit (f : String) (st : FileStat) : Bool :=
  basename f == "__init__.py" && st.size == 0

/-- The `fileType` property value (line 503). -/
def entryFileType (f : String) (st : FileStat) : String :=
  if isEmptyInit f st then "python_package_marker"
  else getFileType f st.content

/-- One element of the `files` array (lines 495-506) after the
stringify/parse round-trip: `lastModified` as its ISO string and the
`description` property dropped when `undefined`. -/
def fileEntry (compact : Bool) (f : String) (st : FileStat) : JVal :=
  jobj
    ([("path", jstr f), ("relativePath", jstr f),
      ("size", JVal.num st.size), ("extension", jstr (extname f)),
      ("content", jstr (jsonFileContent compact st.content)),
      ("lastModified", jstr st.mtimeISO)] ++
     (match getFileDescription (basename f) with
      | some d => [("description", jstr d)]
      | none => []) ++
     [("fileType", jstr (entryFileType f st)),
      ("isEmpty", JVal.bool (st.size == 0)),
      ("isPackageInit", JVal.bool (isEmptyInit f st))])

/-- The per-file loop of `generateJSONOutput` (lines 486-510): the read
successes in order, and the `Cannot read file` errors pushed for the
failures. -/
def processJson (reads : String → Except String FileStat) :
    List String → List (String × FileStat) × List String
  | [] => ([], [])
  | f :: fs =>
      match reads f with
      | .ok st =>
          let r := processJson reads fs
          ((f, st) :: r.1, r.2)
      | .error m =>
          let r := processJson reads fs
          (r.1, ("Cannot read file " ++ f ++ ": " ++ m) :: r.2)

/-- `fileTypeCounts[t] = (fileTypeCounts[t] || 0) + 1` (line 513): an
association list in first-occurrence order. -/
def bumpCount (k : String) : List (String × Nat) → List (String × Nat)
  | [] => [(k, 1)]
  | (k', n) :: rest =>
      if k' = k then (k', n + 1) :: rest else (k', n) :: bumpCount k rest

/-- The `fileTypeBreakdown` table (lines 511-518). -/
def fileTypeCounts (types : List String) : List (String × Nat) :=
  types.foldl (fun acc t => bumpCount t acc) []

/-- The `aiContext.note` literal (line 535). -/
def aiNote : String :=
  "Empty __init__.py files are normal Python package markers that enable imports. They are not errors or missing code."

/-- The metadata fields after `generatedAt` (lines 521-537). -/
def jsonMetadataTail (env : JsonRunEnv) (files : List String) : JObj :=
  let processed := (processJson env.reads files).1
  let emptyInits := (processed.filter (fun q => isEmptyInit q.1 q.2)).map
    (fun q => q.1)
  JObj.ofList ((
    [("source", jstr env.source),
     ("totalFiles", JVal.num files.length),
     ("filesWithContent",
       JVal.num (processed.filter (fun q => !(q.2.size == 0))).length),
     ("emptyPackageMarkers", JVal.num emptyInits.length),
     ("fileTypeBreakdown", jobj
       ((fileTypeCounts
          (processed.map (fun q => entryFileType q.1 q.2))).map
         (fun q => (q.1, JVal.num q.2)))),
     ("options", jobj
       [("compact", JVal.bool env.compact),
        ("smart", JVal.bool env.smart),
        ("maxFileSize", JVal.num env.maxFileSize),
        ("respectGitignore", JVal.bool env.respectGitignore)]),
     ("aiContext", jobj
       [("note", jstr aiNote),
        ("emptyInitFiles", jstrArr emptyInits)])]).map
    (fun p => (utf8Str p.1, p.2)))

/-- The document fields after `metadata` (lines 538-541). -/
def jsonDocumentTail (env : JsonRunEnv) (files : List String) : JObj :=
  let p := processJson env.reads files
  JObj.ofList (([
    ("analysis", analyzeProject files),
    ("files", jarr (p.1.map (fun q => fileEntry env.compact q.1 q.2))),
    ("skippedFiles", jarr (env.skippedFiles.map (fun s =>
      jobj [("name", jstr s.name), ("size", JVal.num s.size)]))),
    ("errors", jstrArr (env.errors0 ++ p.2))]).map
    (fun q => (utf8Str q.1, q.2)))

/-- The parsed JSON document: the `result` object of `generateJSONOutput`
(lines 519-542), with `metadata` first and `generatedAt` its first
field. -/
def jsonDocument (env : JsonRunEnv) (files : List String) (t : String) :
    JVal :=
  JVal.obj (JObj.cons (utf8Str "metadata")
    (JVal.obj (JObj.cons (utf8Str "generatedAt") (jstr t)
      (jsonMetadataTail env files)))
    (jsonDocumentTail env files))

/-- The text between the sentinels (lines 737-739):
`packed.toString('base64')` of `msgpack.encode` applied to the parsed
document. -/
def msgpackPayload (env : JsonRunEnv) (files : List String) (t : String) :
    String :=
  base64Encode (msgpackEncode (jsonDocument env files t))

/-- Blank out the document's `metadata.generatedAt` field — the claim's
"ignoring the generation timestamp field". -/
def eraseTs : JVal → JVal
  | .obj (.cons mk (.obj (.cons gk _ mrest)) rest) =>
      .obj (.cons mk (.obj (.cons gk (jstr "") mrest)) rest)
  | v => v

/-- A tiny concrete run for the C3 witness: one readable file, one
skipped file. -/
def witnessJsonEnv : JsonRunEnv where
  source := "/proj"
  compact := false
  smart := false
  maxFileSize := 1048576
  respectGitignore := true
  reads := fun f =>
    if f = "a.js" then
      .ok ⟨"const x = 1;\n", 13, "2024-01-01T00:00:00.000Z"⟩
    else .error "ENOENT"
  skippedFiles := [⟨"big.bin", 600⟩]
  errors0 := []

/-! ### Order properties of the priority comparator -/

theorem natCompare_eq_iff {m n : Nat} : natCompare m n = .eq ↔ m = n := by
  unfold natCompare
  split_ifs <;> simp <;> omega

theorem natCompare_lt_iff {m n : Nat} : natCompare m n = .lt ↔ m < n := by
  unfold natCompare
  split_ifs <;> simp <;> omega

theorem natCompare_swap (m n : Nat) : natCompare n m = (natCompare m n).swap := by
  unfold natCompare
  split_ifs <;> simp [Ordering.swap] <;> omega

theorem lexComp_eq_iff {o₁ o₂ : Ordering} :
    lexComp o₁ o₂ = .eq ↔ o₁ = .eq ∧ o₂ = .eq := by
  cases o₁ <;> simp [lexComp]

theorem lexComp_swap (o₁ o₂ : Ordering) :
    lexComp o₁.swap o₂.swap = (lexComp o₁ o₂).swap := by
  cases o₁ <;> cases o₂ <;> rfl

theorem lexComp_lt_iff {o₁ o₂ : Ordering} :
    lexComp o₁ o₂ = .lt ↔ o₁ = .lt ∨ (o₁ = .eq ∧ o₂ = .lt) := by
  cases o₁ <;> simp [lexComp]

theorem charCompare_eq_iff {c d : Char} :
    natCompare c.toNat d.toNat = .eq ↔ c = d := by
  rw [natCompare_eq_iff]
  constructor
  · intro h
    exact Char.eq_of_val_eq (UInt32.ext h)
  · rintro rfl; rfl

theorem listCompare_eq_iff {l₁ l₂ : List Char} :
    listCompare l₁ l₂ = .eq ↔ l₁ = l₂ := by
  induction l₁ generalizing l₂ with
  | nil => cases l₂ <;> simp [listCompare]
  | cons c cs ih =>
      cases l₂ with
      | nil => simp [listCompare]
      | cons d ds => simp [listCompare, lexComp_eq_iff, charCompare_eq_iff, ih]

theorem listCompare_swap (l₁ l₂ : List Char) :
    listCompare l₂ l₁ = (listCompare l₁ l₂).swap := by
  induction l₁ generalizing l₂ with
  | nil => cases l₂ <;> rfl
  | cons c cs ih =>
      cases l₂ with
      | nil => rfl
      | cons d ds =>
          simp only [listCompare]
          rw [ih ds, ← lexComp_swap, natCompare_swap]

theorem listCompare_lt_trans {l₁ l₂ l₃ : List Char}
    (h₁ : listCompare l₁ l₂ = .lt) (h₂ : listCompare l₂ l₃ = .lt) :
    listCompare l₁ l₃ = .lt := by
  induction l₁ generalizing l₂ l₃ with
  | nil =>
      cases l₂ with
      | nil => simp [listCompare] at h₁
      | cons d ds =>
          cases l₃ with
          | nil => simp [listCompare] at h₂
          | cons e es => simp [listCompare]
  | cons c cs ih =>
      cases l₂ with
      | nil => simp [listCompare] at h₁
      | cons d ds =>
          cases l₃ with
          | nil => simp [listCompare] at h₂
          | cons e es =>
              simp only [listCompare, lexComp_lt_iff] at h₁ h₂ ⊢
              rcases h₁ with h₁ | ⟨h₁e, h₁l⟩
              · rcases h₂ with h₂ | ⟨h₂e, h₂l⟩
                · exact Or.inl (natCompare_lt_iff.mpr (Nat.lt_trans
                    (natCompare_lt_iff.mp h₁) (natCompare_lt_iff.mp h₂)))
                · rw [natCompare_eq_iff] at h₂e
                  exact Or.inl (by rw [← h₂e]; exact h₁)
              · rcases h₂ with h₂ | ⟨h₂e, h₂l⟩
                · rw [natCompare_eq_iff] at h₁e
                  exact Or.inl (by rw [h₁e]; exact h₂)
                · rw [natCompare_eq_iff] at h₁e h₂e
                  exact Or.inr ⟨natCompare_eq_iff.mpr (h₁e.trans h₂e),
                    ih h₁l h₂l⟩

theorem localeCompare_eq_iff {a b : String} :
    localeCompare a b = .eq ↔ a = b := by
  unfold localeCompare
  rw [listCompare_eq_iff]
  constructor
  · intro h
    cases a; cases b
    simp only [String.toList] at h
    exact congrArg String.mk h
  · rintro rfl; rfl

theorem prioCompare_eq_iff {a b : String} : prioCompare a b = .eq ↔ a = b := by
  unfold prioCompare
  simp only [lexComp_eq_iff, natCompare_eq_iff, localeCompare_eq_iff]
  constructor
  · rintro ⟨-, -, rfl⟩; rfl
  · rintro rfl; exact ⟨rfl, rfl, rfl⟩

theorem prioCompare_swap (a b : String) :
    prioCompare b a = (prioCompare a b).swap := by
  unfold prioCompare localeCompare
  rw [natCompare_swap (priorityRank (basename a)),
    natCompare_swap (extRank (extname a)), listCompare_swap,
    lexComp_swap, lexComp_swap]

theorem prioCompare_lt_trans {a b c : String}
    (h₁ : prioCompare a b = .lt) (h₂ : prioCompare b c = .lt) :
    prioCompare a c = .lt := by
  unfold prioCompare at h₁ h₂ ⊢
  rw [lexComp_lt_iff] at h₁ h₂ ⊢
  rcases h₁ with h₁ | ⟨h₁p, h₁r⟩
  · rcases h₂ with h₂ | ⟨h₂p, h₂r⟩
    · exact Or.inl (natCompare_lt_iff.mpr
        (Nat.lt_trans (natCompare_lt_iff.mp h₁) (natCompare_lt_iff.mp h₂)))
    · rw [natCompare_eq_iff] at h₂p
      exact Or.inl (by rw [← h₂p]; exact h₁)
  · rcases h₂ with h₂ | ⟨h₂p, h₂r⟩
    · rw [natCompare_eq_iff] at h₁p
      exact Or.inl (by rw [h₁p]; exact h₂)
    · rw [natCompare_eq_iff] at h₁p h₂p
      refine Or.inr ⟨natCompare_eq_iff.mpr (h₁p.trans h₂p), ?_⟩
      rw [lexComp_lt_iff] at h₁r h₂r ⊢
      rcases h₁r with h₁r | ⟨h₁e, h₁l⟩
      · rcases h₂r with h₂r | ⟨h₂e, h₂l⟩
        · exact Or.inl (natCompare_lt_iff.mpr
            (Nat.lt_trans (natCompare_lt_iff.mp h₁r) (natCompare_lt_iff.mp h₂r)))
        · rw [natCompare_eq_iff] at h₂e
          exact Or.inl (by rw [← h₂e]; exact h₁r)
      · rcases h₂r with h₂r | ⟨h₂e, h₂l⟩
        · rw [natCompare_eq_iff] at h₁e
          exact Or.inl (by rw [h₁e]; exact h₂r)
        · rw [natCompare_eq_iff] at h₁e h₂e
          exact Or.inr ⟨natCompare_eq_iff.mpr (h₁e.trans h₂e),
            listCompare_lt_trans h₁l h₂l⟩

theorem prioLE_total : ∀ a b : String, prioLE a b ∨ prioLE b a := by
  intro a b
  unfold prioLE
  rw [prioCompare_swap a b]
  cases prioCompare a b <;> simp [Ordering.swap]

theorem prioLE_trans : ∀ {a b c : String}, prioLE a b → prioLE b c → prioLE a c := by
  intro a b c hab hbc
  unfold prioLE at *
  rcases h₁ : prioCompare a b with _ | _ | _ <;>
    rcases h₂ : prioCompare b c with _ | _ | _ <;> try simp_all
  · -- a < b, b < c
    intro hac
    have := prioCompare_lt_trans h₁ h₂
    simp [this] at hac
  · rw [prioCompare_eq_iff] at h₂
    intro hac; rw [← h₂] at hac; simp [h₁] at hac
  · rw [prioCompare_eq_iff] at h₁
    intro hac; rw [h₁] at hac; simp [h₂] at hac
  · rw [prioCompare_eq_iff] at h₁ h₂
    intro hac; rw [h₁, h₂] at hac
    simp [prioCompare_eq_iff.mpr rfl] at hac

theorem prioLE_antisymm : ∀ {a b : String}, prioLE a b → prioLE b a → a = b := by
  intro a b hab hba
  unfold prioLE at *
  rw [prioCompare_swap a b] at hba
  rcases h : prioCompare a b with _ | _ | _
  · simp [h, Ordering.swap] at hba
  · exact prioCompare_eq_iff.mp h
  · simp [h] at hab

/-! ### Discovery lemmas -/

theorem mem_included_iff {env : DiscoveryEnv} {m : Nat} {l : List String}
    {f : String} :
    f ∈ (runFilter env m l).included ↔ f ∈ l ∧ filterStep env m f = .keep := by
  induction l with
  | nil => simp [runFilter]
  | cons g gs ih =>
      rcases hg : filterStep env m g with _ | _ | e | msg <;>
        simp only [runFilter, hg, List.mem_cons, ih] <;>
        by_cases hfg : f = g <;> simp [hfg, hg]

theorem mem_skipped_of_filterStep {env : DiscoveryEnv} {m : Nat}
    {l : List String} {f : String} {e : SkippedFile} (hf : f ∈ l)
    (hstep : filterStep env m f = .skipLarge e) :
    e ∈ (runFilter env m l).skippedFiles := by
  induction l with
  | nil => cases hf
  | cons g gs ih =>
      rcases List.mem_cons.mp hf with rfl | hf'
      · simp [runFilter, hstep]
      · rcases hg : filterStep env m g with _ | _ | e' | msg <;>
          simp [runFilter, hg, ih hf']

theorem mem_errors_of_filterStep {env : DiscoveryEnv} {m : Nat}
    {l : List String} {f : String} {msg : String} (hf : f ∈ l)
    (hstep : filterStep env m f = .statError msg) :
    msg ∈ (runFilter env m l).errors := by
  induction l with
  | nil => cases hf
  | cons g gs ih =>
      rcases List.mem_cons.mp hf with rfl | hf'
      · simp [runFilter, hstep]
      · rcases hg : filterStep env m g with _ | _ | e' | msg' <;>
          simp [runFilter, hg, ih hf']

theorem splitOnChar_ne_nil (sep : Char) (l : List Char) :
    splitOnChar sep l ≠ [] := by
  induction l with
  | nil => simp [splitOnChar]
  | cons c cs ih =>
      rw [splitOnChar]
      by_cases hc : c = sep
      · simp [hc]
      · simp only [hc, if_false]
        rcases hr : splitOnChar sep cs with _ | ⟨g, gs⟩ <;> simp

theorem basename_mem_pathParts (p : String) : basename p ∈ pathParts p := by
  have hne : pathParts p ≠ [] := by
    unfold pathParts
    simpa using splitOnChar_ne_nil '/' p.toList
  unfold basename
  rcases h : (pathParts p).getLast? with _ | b
  · exact absurd (List.getLast?_eq_none_iff.mp h) hne
  · exact List.mem_of_mem_getLast? h

theorem hasDot_of_basename_dot {p : String}
    (h : strStarts (basename p) "." = true) : hasDotComponent p = true := by
  unfold hasDotComponent
  rw [List.any_eq_true]
  exact ⟨basename p, basename_mem_pathParts p, h⟩

/-! ## Claim theorems: discovery, prioritization, validation -/

/-- **C10.** Input-path restriction is a string-prefix check, not a
path-containment check: every resolved input path that begins (as a string)
with `/etc`, `/sys`, `/proc`, or `homedir + '/.ssh'` is rejected — including
sibling paths such as `/etcetera` that merely share the prefix — and the
rejection is a `process.exit(1)`, not a recoverable error value. A path
outside the prefixes validates. -/
theorem validateInputPath_prefix_restriction :
    (∀ homedir realPath : String,
        (RESTRICTED_SYSTEM_PATHS ++ [homedir ++ "/.ssh"]).any
            (fun r => strStarts realPath r) = true →
        validateInputPath homedir realPath true true = .exitProcess 1) ∧
    validateInputPath "/home/user" "/etcetera" true true = .exitProcess 1 ∧
    validateInputPath "/home/user" "/srv/project" true true = .ok "/srv/project" := by
  refine ⟨?_, by decide, by decide⟩
  intro homedir realPath h
  unfold validateInputPath
  simp only [Bool.not_true, Bool.false_eq_true, if_false, h, if_true]

/-- Witness for C10: the concrete restricted path `/etc/passwd` is rejected
with a process exit. -/
theorem validateInputPath_prefix_restriction_witness :
    validateInputPath "/home/user" "/etc/passwd" true true = .exitProcess 1 :=
  validateInputPath_prefix_restriction.1 "/home/user" "/etc/passwd" (by decide)

/-- **C7.** A file that survives exclusion filtering (not gitignored, not a
virtual-env path, not binary, on the source allowlist) but whose size
exceeds the per-file ceiling is excluded from the included set and recorded
in `skippedFiles` with `size = round(bytes/1024)` (= `(size+512)/1024` for
integer byte counts); if the stat itself fails, a processing error is
recorded and the file is excluded. -/
theorem oversized_file_skipped (env : DiscoveryEnv) (maxFileSize : Nat)
    (candidates : List String) (f : String)
    (hgit : env.gitignored f = false) (hvenv : isVirtualEnvPath f = false)
    (hbin : isBinaryFile (jsToLower (extname f)) = false)
    (hsrc : isSourceFile (jsToLower (extname f)) f = true)
    (hmem : f ∈ candidates) :
    (∀ size : Nat, env.statSize f = .ok size → size > maxFileSize →
      f ∉ (runFilter env maxFileSize candidates).included ∧
      (⟨f, (size + 512) / 1024⟩ : SkippedFile) ∈
        (runFilter env maxFileSize candidates).skippedFiles) ∧
    (∀ msg : String, env.statSize f = .error msg →
      f ∉ (runFilter env maxFileSize candidates).included ∧
      ("Cannot access file " ++ f ++ ": " ++ msg) ∈
        (runFilter env maxFileSize candidates).errors) := by
  constructor
  · intro size hstat hbig
    have hstep : filterStep env maxFileSize f =
        .skipLarge ⟨f, (size + 512) / 1024⟩ := by
      unfold filterStep
      simp [hgit, hvenv, hbin, hsrc, hstat, hbig]
    constructor
    · intro hinc
      have := (mem_included_iff.mp hinc).2
      rw [hstep] at this
      cases this
    · exact mem_skipped_of_filterStep hmem hstep
  · intro msg hstat
    have hstep : filterStep env maxFileSize f =
        .statError ("Cannot access file " ++ f ++ ": " ++ msg) := by
      unfold filterStep
      simp [hgit, hvenv, hbin, hsrc, hstat]
    constructor
    · intro hinc
      have := (mem_included_iff.mp hinc).2
      rw [hstep] at this
      cases this
    · exact mem_errors_of_filterStep hmem hstep

/-- Witness for C7: a 600 KB file (`614400` bytes) against the default
500 KB ceiling (`512000` bytes) is excluded and recorded as
`{ name: "big.js", size: 600 }`; a file whose stat fails is excluded with a
recorded error. -/
theorem oversized_file_skipped_witness :
    ("big.js" ∉ (runFilter witnessEnv 512000 ["big.js", "bad.js"]).included ∧
      (⟨"big.js", 600⟩ : SkippedFile) ∈
        (runFilter witnessEnv 512000 ["big.js", "bad.js"]).skippedFiles) ∧
    ("bad.js" ∉ (runFilter witnessEnv 512000 ["big.js", "bad.js"]).included ∧
      "Cannot access file bad.js: EACCES" ∈
        (runFilter witnessEnv 512000 ["big.js", "bad.js"]).errors) := by
  refine ⟨?_, ?_⟩
  · have h := (oversized_file_skipped witnessEnv 512000 ["big.js", "bad.js"]
      "big.js" (by decide) (by decide) (by decide) (by decide) (by simp)).1
      614400 (by rfl) (by decide)
    simpa using h
  · have h := (oversized_file_skipped witnessEnv 512000 ["big.js", "bad.js"]
      "bad.js" (by decide) (by decide) (by decide) (by decide) (by simp)).2
      "EACCES" (by rfl)
    simpa using h

/-- **C9.** Because directory enumeration runs glob with `dot: false`, no
path containing a component that begins with a dot is ever discovered or
included; in particular the dotfile names on the source allowlist
(`.gitignore`, `.eslintrc.js`, `.eslintrc.json`, `.prettierrc`) can never
appear in the included set. -/
theorem no_dot_component_included (env : DiscoveryEnv) (m : Nat)
    (tree : List String) (excluded : String → Bool) (f : String)
    (hf : f ∈ (getFiles env m tree excluded).included) :
    hasDotComponent f = false ∧
    [".gitignore", ".eslintrc.js", ".eslintrc.json", ".prettierrc"].contains
      (basename f) = false := by
  have hmem : f ∈ globFiles tree excluded :=
    (mem_included_iff.mp hf).1
  have hdot : hasDotComponent f = false := by
    unfold globFiles at hmem
    have := (List.mem_filter.mp hmem).2
    simp only [Bool.and_eq_true, Bool.not_eq_true'] at this
    exact this.1
  refine ⟨hdot, ?_⟩
  by_contra h
  rw [Bool.not_eq_false, List.contains_eq_any_beq, List.any_eq_true] at h
  obtain ⟨name, hname, hbeq⟩ := h
  have hb : basename f = name := eq_of_beq hbeq
  have hstarts : strStarts (basename f) "." = true := by
    rw [hb]
    fin_cases hname <;> decide
  rw [hasDot_of_basename_dot hstarts] at hdot
  cases hdot

/-- Witness for C9: in a tree containing `.gitignore` and `src/app.js`,
only `src/app.js` is included, and the theorem applies to it. -/
theorem no_dot_component_included_witness :
    hasDotComponent "src/app.js" = false ∧
    [".gitignore", ".eslintrc.js", ".eslintrc.json", ".prettierrc"].contains
      (basename "src/app.js") = false :=
  no_dot_component_included
    ⟨fun _ => false, fun _ => .ok 10⟩ 512000
    [".gitignore", "src/app.js"] (fun _ => false) "src/app.js" (by decide)

/-- **C8.** The priority ordering is a deterministic total order: the
comparator is reflexive-free trichotomous (equality exactly on equal paths,
antisymmetric, transitive, total), `prioritizeFiles` returns the sorted
permutation of its input, and any arrangement of a root containing
`README.md`, `package.json` and `src/index.js` sorts to exactly
`[README.md, package.json, src/index.js]`. -/
theorem prioritizeFiles_total_order :
    (∀ a b : String, prioCompare a b = .eq ↔ a = b) ∧
    (∀ a b : String, prioCompare b a = (prioCompare a b).swap) ∧
    (∀ a b c : String, prioCompare a b = .lt → prioCompare b c = .lt →
      prioCompare a c = .lt) ∧
    (∀ l : List String, (prioritizeFiles l).Perm l ∧
      (prioritizeFiles l).Sorted prioLE) ∧
    (∀ l : List String, l.Perm ["README.md", "package.json", "src/index.js"] →
      prioritizeFiles l = ["README.md", "package.json", "src/index.js"]) := by
  haveI : IsTotal String prioLE := ⟨prioLE_total⟩
  haveI : IsTrans String prioLE := ⟨fun _ _ _ => prioLE_trans⟩
  haveI : IsAntisymm String prioLE := ⟨fun _ _ => prioLE_antisymm⟩
  refine ⟨fun _ _ => prioCompare_eq_iff, prioCompare_swap,
    fun _ _ _ => prioCompare_lt_trans,
    fun l => ⟨List.perm_insertionSort prioLE l,
      List.sorted_insertionSort prioLE l⟩, ?_⟩
  intro l hperm
  refine List.eq_of_perm_of_sorted
    ((List.perm_insertionSort prioLE l).trans hperm)
    (List.sorted_insertionSort prioLE l) ?_
  decide

/-- Witness for C8: sorting the concrete arrangement
`[src/index.js, README.md, package.json]`. -/
theorem prioritizeFiles_total_order_witness :
    prioritizeFiles ["src/index.js", "README.md", "package.json"] =
      ["README.md", "package.json", "src/index.js"] :=
  prioritizeFiles_total_order.2.2.2.2
    ["src/index.js", "README.md", "package.json"] (by decide)

/-! ## Claim theorems: orchestration -/

/-- **C1 counterexample.** The claim says every produced document — also
each of the nine in an all-formats run — is size-checked against the
aggregate ceiling before any write, aborting with `Output too large` when it
exceeds it. False: in an all-formats run with aggregate ceiling 0 where
every strategy produces the 5-byte document `"hello"`, the document is
written (here for the markdown format) and no `Output too large` abort
occurs anywhere in the run — `generateAllFormats` (lines 1494-1537)
contains no size comparison at all. -/
theorem outputTooLarge_allFormats_counterexample :
    utf8Len "hello" > 0 ∧
    RunEvent.wrote "out.md" "hello" ∈
      generateAllFormats (fun _ => .ok "hello") false "out" ∧
    ∀ e ∈ generateAllFormats (fun _ => .ok "hello") false "out",
      e ≠ .fatal .outputTooLarge := by
  decide

/-- **C1 (amended).** In a single-format run the document's byte length is
compared against the configured aggregate ceiling before any write, and
when it exceeds the ceiling the run aborts with the fatal `Output too
large` error with nothing written; in an all-formats run no aggregate size
check is performed — every successfully generated document is written
regardless of its size. -/
theorem outputTooLarge_single_format_only :
    (∀ (format : String) (files : List String) (gen : OutputFormat → String)
        (limit : Nat) (dryRun : Bool) (outPath : String) (fmt : OutputFormat),
      createStrategy format = some fmt → utf8Len (gen fmt) > limit →
      compressSingle format files gen limit dryRun outPath =
        [.discovery files, .generated fmt (gen fmt),
         .fatal .outputTooLarge]) ∧
    (∀ (gen : OutputFormat → Except String String) (base : String)
        (fmt : OutputFormat) (output : String),
      gen fmt = .ok output →
      RunEvent.wrote (base ++ "." ++ formatExt fmt) output ∈
        generateAllFormats gen false base) := by
  constructor
  · intro format files gen limit dryRun outPath fmt hfmt hsize
    unfold compressSingle
    rw [hfmt]
    simp [hsize]
  · intro gen base fmt output hgen
    unfold generateAllFormats
    rw [List.mem_flatten]
    refine ⟨[.generated fmt output,
      .wrote (base ++ "." ++ formatExt fmt) output], ?_, by simp⟩
    rw [List.mem_map]
    exact ⟨fmt, by cases fmt <;> decide, by simp [hgen]⟩

/-- Witness for the amended C1: a 5-byte document against a 2-byte ceiling
aborts the single-format run before writing; the same document is written
by the all-formats run. -/
theorem outputTooLarge_single_format_only_witness :
    compressSingle "json" ["a.js"] (fun _ => "hello") 2 false "out.md" =
      [.discovery ["a.js"], .generated .json "hello",
       .fatal .outputTooLarge] ∧
    RunEvent.wrote "out.json" "hello" ∈
      generateAllFormats (fun _ => .ok "hello") false "out" := by
  constructor
  · exact outputTooLarge_single_format_only.1 "json" ["a.js"]
      (fun _ => "hello") 2 false "out.md" .json (by decide) (by decide)
  · have h := outputTooLarge_single_format_only.2 (fun _ => .ok "hello")
      "out" .json "hello" rfl
    simpa using h

/-- **C5 counterexample.** The claim says an unrecognized format tag fails
fatally before any discovery work. False: `compress` runs `getFiles`
(directory enumeration and per-file stats, line 303) first, and the
`Unsupported output format` error is only thrown when the strategy is
created afterwards (lines 312-313, 546, 173-176) — the concrete run with
tag `bogus` performs discovery and only then aborts. -/
theorem unsupportedFormat_after_discovery_counterexample :
    compressSingle "bogus" ["a.js"] (fun _ => "") 100 false "out.md" =
      [.discovery ["a.js"], .fatal (.unsupportedFormat "bogus")] ∧
    compressSingle "bogus" ["a.js"] (fun _ => "") 100 false "out.md" ≠
      [.fatal (.unsupportedFormat "bogus")] := by
  decide

/-- **C5 (amended).** Exactly the nine tags of `OUTPUT_FORMATS` are
recognized; a run with any other tag completes file discovery first and
then aborts fatally with the unsupported-format error, before any document
is generated or written. -/
theorem unsupportedFormat_fatal_after_discovery :
    (∀ format : String,
      (createStrategy format).isSome = OUTPUT_FORMATS.contains format) ∧
    (∀ (format : String) (files : List String) (gen : OutputFormat → String)
        (limit : Nat) (dryRun : Bool) (outPath : String),
      createStrategy format = none →
      compressSingle format files gen limit dryRun outPath =
        [.discovery files, .fatal (.unsupportedFormat format)]) := by
  constructor
  · intro format
    unfold createStrategy OUTPUT_FORMATS
    split_ifs with h1 h2 h3 h4 h5 h6 h7 h8 h9 <;> simp_all [eq_comm]
  · intro format files gen limit dryRun outPath h
    unfold compressSingle
    rw [h]

/-- Witness for the amended C5: the unrecognized tag `bogus` and the
recognized tag `json`. -/
theorem unsupportedFormat_fatal_after_discovery_witness :
    (createStrategy "bogus").isSome = OUTPUT_FORMATS.contains "bogus" ∧
    compressSingle "bogus" ["a.js"] (fun _ => "") 100 false "out.md" =
      [.discovery ["a.js"], .fatal (.unsupportedFormat "bogus")] :=
  ⟨unsupportedFormat_fatal_after_discovery.1 "bogus",
   unsupportedFormat_fatal_after_discovery.2 "bogus" ["a.js"] (fun _ => "")
     100 false "out.md" (by decide)⟩

/-! ## Claim theorems: per-strategy read failures -/

theorem mem_processFilesRecording {reads : String → Except String String}
    {files : List String} {e : ProcessedEntry}
    (he : e ∈ (processFilesRecording reads files).1) :
    reads e.path = .ok e.content := by
  induction files with
  | nil => simp [processFilesRecording] at he
  | cons f fs ih =>
      rcases hr : reads f with m | c <;>
        simp only [processFilesRecording, hr] at he
      · exact ih he
      · rcases List.mem_cons.mp he with rfl | he'
        · exact hr
        · exact ih he'

theorem mem_processFilesSmart {reads : String → Except String String}
    {files : List String} {e : ProcessedEntry}
    (he : e ∈ (processFilesSmart reads files).1) :
    reads e.path = .ok e.content := by
  induction files with
  | nil => simp [processFilesSmart] at he
  | cons f fs ih =>
      rcases hr : reads f with m | c <;>
        simp only [processFilesSmart, hr] at he
      · exact ih he
      · rcases List.mem_cons.mp he with rfl | he'
        · exact hr
        · exact ih he'

/-- **C6 counterexample.** The claim says every strategy records a
`ProcessingError` for a file whose read fails during its own pass. False
for the smart-mode markdown renderer: `generateSmartOutput`'s `catch`
(lines 1092-1094) records nothing — on the concrete run below the smart
pass produces no error entry, while the shared recording loop of every
other strategy produces one. -/
theorem smart_read_error_counterexample :
    processFilesSmart (fun _ => .error "Permission denied") ["file1.js"] =
      ([], []) ∧
    processFilesRecording (fun _ => .error "Permission denied")
        ["file1.js"] =
      ([], ["Cannot read file file1.js: Permission denied"]) := by
  decide

/-- **C6 (amended).** For every strategy other than the smart-mode markdown
renderer, a per-file read failure during that strategy's own pass appends
`Cannot read file <file>: <message>` to the errors list and omits the file
from the document body, and the pass completes; the smart renderer also
omits the file and completes, but records nothing — its pass never
contributes an error entry. -/
theorem strategy_read_failure_handling :
    (∀ (reads : String → Except String String) (files : List String)
        (f m : String), f ∈ files → reads f = .error m →
      (∀ e ∈ (processFilesRecording reads files).1, e.path ≠ f) ∧
      ("Cannot read file " ++ f ++ ": " ++ m) ∈
        (processFilesRecording reads files).2) ∧
    (∀ (reads : String → Except String String) (files : List String)
        (f m : String), f ∈ files → reads f = .error m →
      ∀ e ∈ (processFilesSmart reads files).1, e.path ≠ f) ∧
    (∀ (reads : String → Except String String) (files : List String),
      (processFilesSmart reads files).2 = []) := by
  refine ⟨?_, ?_, ?_⟩
  · intro reads files f m hf hr
    constructor
    · intro e he hef
      have := mem_processFilesRecording he
      rw [hef, hr] at this
      cases this
    · induction files with
      | nil => cases hf
      | cons g gs ih =>
          rcases List.mem_cons.mp hf with rfl | hf'
          · simp [processFilesRecording, hr]
          · rcases hg : reads g with m' | c <;>
              simp [processFilesRecording, hg, ih hf']
  · intro reads files f m hf hr e he hef
    have := mem_processFilesSmart he
    rw [hef, hr] at this
    cases this
  · intro reads files
    induction files with
    | nil => rfl
    | cons g gs ih =>
        rcases hg : reads g with m' | c <;>
          simp [processFilesSmart, hg, ih]

/-- Witness for the amended C6: a concrete failing read. -/
theorem strategy_read_failure_handling_witness :
    ((∀ e ∈ (processFilesRecording (fun _ => .error "EACCES")
        ["f.js"]).1, e.path ≠ "f.js") ∧
      ("Cannot read file f.js: EACCES") ∈
        (processFilesRecording (fun _ => .error "EACCES") ["f.js"]).2) ∧
    (processFilesSmart (fun _ => .error "EACCES") ["f.js"]).2 = [] :=
  ⟨by
    have h := strategy_read_failure_handling.1 (fun _ => .error "EACCES")
      ["f.js"] "f.js" "EACCES" (by simp) rfl
    simpa using h,
   strategy_read_failure_handling.2.2 (fun _ => .error "EACCES") ["f.js"]⟩

/-! ## Claim theorems: content uniformity across strategies (C2) -/

/-- **C2 counterexample.** The claim says all nine strategies embed exactly
the same transformed content, selected once by the run's mode. False: in a
raw-mode run (neither compact nor smart), the JSON strategy embeds the raw
content `"a  b"` while the optimized-markdown strategy applies its own
`optimizeContentForSize` and embeds `"a b"`. -/
theorem strategy_content_not_uniform_counterexample :
    mdoptContent "a  b" = "a b" ∧
    jsonFileContent false "a  b" = "a  b" ∧
    mdoptContent "a  b" ≠ jsonFileContent false "a  b" := by
  refine ⟨by decide, rfl, by decide⟩

/-- **C2 (amended).** Content uniformity holds only across the six
structured strategies (JSON, YAML, TOML, MessagePack, DSL, JSON-LD): each
embeds `optimizeContent` of the raw content when compact mode is on and the
raw content otherwise, identically. The markdown-family strategies deviate:
the YAML-frontmatter strategy's body embeds raw content regardless of mode
(its compact-transformed array is used only for counts), and the
optimized-markdown strategy always applies its own `optimizeContentForSize`
transform, which differs both from the raw content and from
`optimizeContent` (shown at `"a  b"`). -/
theorem structured_strategies_content_uniform :
    (∀ (compact : Bool) (raw : String),
      jsonFileContent compact raw = yamlFileContent compact raw ∧
      jsonFileContent compact raw = tomlFileContent compact raw ∧
      jsonFileContent compact raw = msgpackFileContent compact raw ∧
      jsonFileContent compact raw = dslFileContent compact raw ∧
      jsonFileContent compact raw = jsonldFileContent compact raw ∧
      jsonFileContent compact raw =
        (if compact then optimizeContent raw else raw)) ∧
    (∀ raw : String, mdyamlBodyContent raw = raw) ∧
    (mdoptContent "a  b" ≠ "a  b" ∧
      mdoptContent "a  b" ≠ optimizeContent "a  b") := by
  refine ⟨fun compact raw => ⟨rfl, rfl, rfl, rfl, rfl, rfl⟩,
    fun raw => rfl, by decide, by decide⟩

/-! ## Claim theorems: compact normalization idempotence (C4) -/

/-- **C4 counterexample.** The claim says
`normalize(normalize(x)) = normalize(x)` for every text `x`. False:
comment removal runs after whitespace cleanup, so removing `/*c*/` from
`"a /*c*/\nb"` exposes a trailing space that survives the first
application (`"a \nb"`) and is removed only by the second (`"a\nb"`). -/
theorem optimizeContent_not_idempotent :
    optimizeContent "a /*c*/\nb" = "a \nb" ∧
    optimizeContent (optimizeContent "a /*c*/\nb") = "a\nb" ∧
    optimizeContent (optimizeContent "a /*c*/\nb") ≠
      optimizeContent "a /*c*/\nb" := by
  refine ⟨by decide, by decide, by decide⟩

/-! ### Fixed-point lemmas for the six normalization passes -/

theorem collapseRunsF_id (l : List Char) : ∀ fuel : Nat,
    l.length ≤ fuel → noTripleRun l = true → collapseRunsF fuel l = l := by
  induction l with
  | nil => intro fuel _ _; cases fuel <;> rfl
  | cons c rest ih =>
      intro fuel hlen hinv
      cases fuel with
      | zero => simp at hlen
      | succ f =>
          rw [noTripleRun] at hinv
          by_cases hc : c = '\n'
          · rw [if_pos hc] at hinv
            rw [Bool.and_eq_true] at hinv
            have hcount := of_decide_eq_true hinv.1
            have hrec : collapseRunsF f rest = rest :=
              ih f (by simpa using Nat.le_of_succ_le_succ hlen) hinv.2
            rw [collapseRunsF, if_pos hc, if_neg (by omega), hrec]
          · rw [if_neg hc, Bool.true_and] at hinv
            have hrec : collapseRunsF f rest = rest :=
              ih f (by simpa using Nat.le_of_succ_le_succ hlen) hinv
            rw [collapseRunsF, if_neg hc, hrec]

theorem stripWsLinesF_id (l : List Char) : ∀ (fuel : Nat) (flag : Bool),
    l.length ≤ fuel → noBlankMatch flag l = true →
    stripWsLinesF fuel flag l = l := by
  induction l with
  | nil => intro fuel flag _ _; cases fuel <;> rfl
  | cons c rest ih =>
      intro fuel flag hlen hinv
      cases fuel with
      | zero => simp at hlen
      | succ f =>
          rw [noBlankMatch] at hinv
          by_cases hws : (flag && isWs c) = true
          · rw [if_pos hws] at hinv
            simp only [Bool.and_eq_true] at hinv
            obtain ⟨⟨ha, hb⟩, htail⟩ := hinv
            rw [Bool.not_eq_true'] at ha hb
            have hrec : stripWsLinesF f (c = '\n') rest = rest :=
              ih f (c = '\n') (by simpa using Nat.le_of_succ_le_succ hlen)
                htail
            rw [stripWsLinesF, if_pos hws,
              if_neg (by rw [ha]; exact Bool.false_ne_true),
              if_neg (by rw [hb]; exact Bool.false_ne_true), hrec]
          · rw [if_neg hws, Bool.true_and] at hinv
            have hrec : stripWsLinesF f (c = '\n') rest = rest :=
              ih f (c = '\n') (by simpa using Nat.le_of_succ_le_succ hlen)
                hinv
            rw [stripWsLinesF, if_neg hws, hrec]

theorem dropWhile_eq_self_of_head {p : Char → Bool} {l : List Char}
    (h : ∀ c, l.head? = some c → p c = false) : l.dropWhile p = l := by
  cases l with
  | nil => rfl
  | cons c cs =>
      rw [List.dropWhile_cons, h c rfl]
      simp

theorem map_eq_self {α : Type} {f : α → α} {l : List α}
    (h : ∀ x ∈ l, f x = x) : l.map f = l := by
  induction l with
  | nil => rfl
  | cons x xs ih =>
      rw [List.map_cons, h x (by simp), ih (fun y hy => h y (by simp [hy]))]

theorem intercalate_singleton (s x : List Char) :
    List.intercalate s [x] = x := by
  simp [List.intercalate]

theorem intercalate_cons₂ (s x y : List Char) (zs : List (List Char)) :
    List.intercalate s (x :: y :: zs) =
      x ++ s ++ List.intercalate s (y :: zs) := by
  simp [List.intercalate, List.intersperse]

theorem intercalate_splitOnChar (sep : Char) (l : List Char) :
    List.intercalate [sep] (splitOnChar sep l) = l := by
  induction l with
  | nil => rfl
  | cons c cs ih =>
      rw [splitOnChar]
      by_cases hc : c = sep
      · rw [if_pos hc]
        rcases hr : splitOnChar sep cs with _ | ⟨g, gs⟩
        · exact absurd hr (splitOnChar_ne_nil sep cs)
        · rw [hr] at ih
          rw [intercalate_cons₂, ih, hc]
          rfl
      · rw [if_neg hc]
        rcases hr : splitOnChar sep cs with _ | ⟨g, gs⟩
        · exact absurd hr (splitOnChar_ne_nil sep cs)
        · rw [hr] at ih
          cases gs with
          | nil =>
              rw [intercalate_singleton]
              rw [intercalate_singleton] at ih
              rw [ih]
          | cons g' gs' =>
              rw [intercalate_cons₂]
              rw [intercalate_cons₂] at ih
              simpa using ih

theorem stripBlanksEnd_id {line : List Char}
    (h : ∀ c, line.getLast? = some c → isBlank c = false) :
    stripBlanksEnd line = line := by
  unfold stripBlanksEnd
  rw [dropWhile_eq_self_of_head, List.reverse_reverse]
  intro c hc
  rw [List.head?_reverse] at hc
  exact h c hc

theorem stripTrailingBlanks_id {l : List Char}
    (h : noTrailingBlank l = true) : stripTrailingBlanks l = l := by
  unfold stripTrailingBlanks
  unfold noTrailingBlank at h
  rw [List.all_eq_true] at h
  have hmap : (splitOnChar '\n' l).map stripBlanksEnd = splitOnChar '\n' l := by
    apply map_eq_self
    intro line hline
    apply stripBlanksEnd_id
    intro c hc
    have hb := h line hline
    rw [hc] at hb
    simpa using hb
  rw [hmap, intercalate_splitOnChar]

theorem stripBlockCommentsF_id (l : List Char) : ∀ fuel : Nat,
    l.length ≤ fuel → listHasSub ['/', '*'] l = false →
    stripBlockCommentsF fuel l = l := by
  induction l with
  | nil => intro fuel _ _; cases fuel <;> rfl
  | cons c rest ih =>
      intro fuel hlen hsub
      cases fuel with
      | zero => simp at hlen
      | succ f =>
          rw [listHasSub, Bool.or_eq_false_iff] at hsub
          have hrec : stripBlockCommentsF f rest = rest :=
            ih f (by simpa using Nat.le_of_succ_le_succ hlen) hsub.2
          rw [stripBlockCommentsF]
          rw [if_neg ?hcond, hrec]
          case hcond =>
            rintro ⟨rfl, hhead⟩
            rcases rest with _ | ⟨c2, rest2⟩
            · simp at hhead
            · simp only [List.head?_cons, Option.some.injEq] at hhead
              subst hhead
              simp [strStarts.go] at hsub

theorem firstSlashSlash_none {l : List Char}
    (h : listHasSub ['/', '/'] l = false) : firstSlashSlash l = none := by
  induction l with
  | nil => rfl
  | cons c rest ih =>
      rw [listHasSub, Bool.or_eq_false_iff] at h
      rw [firstSlashSlash, if_neg ?hcond, ih h.2]
      · rfl
      case hcond =>
        rintro ⟨rfl, hhead⟩
        rcases rest with _ | ⟨c2, rest2⟩
        · simp at hhead
        · simp only [List.head?_cons, Option.some.injEq] at hhead
          subst hhead
          simp [strStarts.go] at h

theorem listHasSub_append_right (pat l₁ l₂ : List Char)
    (h : listHasSub pat l₂ = true) : listHasSub pat (l₁ ++ l₂) = true := by
  induction l₁ with
  | nil => simpa using h
  | cons c cs ih =>
      rw [List.cons_append, listHasSub, ih, Bool.or_true]

theorem stripLineCommentLine_id {line : List Char}
    (h : listHasSub ['/', '/'] line = false) :
    stripLineCommentLine line = line := by
  unfold stripLineCommentLine
  have hgood : listHasSub ['/', '/']
      ((line.reverse.takeWhile (fun c => !isBadDot c)).reverse) = false := by
    by_contra hg
    rw [Bool.not_eq_false] at hg
    have hdecomp : line =
        (line.reverse.dropWhile (fun c => !isBadDot c)).reverse ++
        (line.reverse.takeWhile (fun c => !isBadDot c)).reverse := by
      conv_lhs => rw [← List.reverse_reverse line]
      conv_lhs =>
        rw [← List.takeWhile_append_dropWhile
          (p := fun c => !isBadDot c) (l := line.reverse)]
      rw [List.reverse_append]
    rw [hdecomp, listHasSub_append_right _ _ _ hg] at h
    cases h
  simp [firstSlashSlash_none hgood]

theorem stripLineComments_id {l : List Char}
    (h : (splitOnChar '\n' l).all
      (fun line => !listHasSub ['/', '/'] line) = true) :
    stripLineComments l = l := by
  unfold stripLineComments
  rw [List.all_eq_true] at h
  have hmap : (splitOnChar '\n' l).map stripLineCommentLine =
      splitOnChar '\n' l := by
    apply map_eq_self
    intro line hline
    apply stripLineCommentLine_id
    have := h line hline
    rwa [Bool.not_eq_true'] at this
  rw [hmap, intercalate_splitOnChar]

theorem jsTrim_id {l : List Char} (h : trimmedStr l = true) : jsTrim l = l := by
  unfold trimmedStr at h
  rw [Bool.and_eq_true] at h
  obtain ⟨hhead, hlast⟩ := h
  unfold jsTrim
  have h1 : l.dropWhile isWs = l := by
    apply dropWhile_eq_self_of_head
    intro c hc
    rw [hc] at hhead
    simpa using hhead
  rw [h1]
  have h2 : l.reverse.dropWhile isWs = l.reverse := by
    apply dropWhile_eq_self_of_head
    intro c hc
    rw [List.head?_reverse] at hc
    rw [hc] at hlast
    simpa using hlast
  rw [h2, List.reverse_reverse]

/-- A string in normal form is a fixed point of `optimizeContent`. -/
theorem optimizeContent_fixed (s : String) (h : isNormalForm s = true) :
    optimizeContent s = s := by
  unfold isNormalForm at h
  simp only [Bool.and_eq_true] at h
  obtain ⟨⟨⟨⟨⟨h1, h2⟩, h3⟩, h4⟩, h5⟩, h6⟩ := h
  unfold optimizeContent
  simp only []
  rw [collapseRunsF_id _ _ (Nat.le_succ _) h1]
  rw [stripWsLinesF_id _ _ _ (Nat.le_succ _) h2]
  rw [stripTrailingBlanks_id h3]
  rw [stripBlockCommentsF_id _ _ (Nat.le_succ _)
    (by rwa [Bool.not_eq_true'] at h5)]
  rw [stripLineComments_id h6]
  rw [jsTrim_id h4]
  cases s
  rfl

/-- **C4 (amended).** `optimizeContent` is not idempotent in general (see
the counterexample), because comment removal runs after the whitespace
passes and can expose new trailing whitespace, whitespace-only lines,
newline runs, or comment markers. It is idempotent at every input whose
normalized output is in normal form — free of three-newline whitespace
runs, whitespace-only line stretches, trailing blanks, untrimmed ends, and
comment markers — which the first application does not itself guarantee. -/
theorem optimizeContent_idempotent_on_normal_form (x : String)
    (h : isNormalForm (optimizeContent x) = true) :
    optimizeContent (optimizeContent x) = optimizeContent x :=
  optimizeContent_fixed (optimizeContent x) h

/-- Witness for the amended C4 at `"hello  \nworld"`, whose normalized
output `"hello\nworld"` is in normal form. -/
theorem optimizeContent_idempotent_on_normal_form_witness :
    optimizeContent (optimizeContent "hello  \nworld") =
      optimizeContent "hello  \nworld" :=
  optimizeContent_idempotent_on_normal_form "hello  \nworld" (by decide)

/-! ### MessagePack round-trip -/

theorem natBE_length (k n : Nat) : (natBE k n).length = k := by
  induction k generalizing n with
  | zero => rfl
  | succ k ih => simp [natBE, ih]

theorem readBEAux_append (A : List Nat) : ∀ (acc j : Nat) (B : List Nat),
    readBEAux acc (A.length + j) (A ++ B) =
      readBEAux (A.foldl (fun a b => a * 256 + b) acc) j B := by
  induction A with
  | nil =>
      intro acc j B
      rw [List.length_nil, Nat.zero_add, List.nil_append, List.foldl_nil]
  | cons x xs ih =>
      intro acc j B
      rw [List.length_cons, List.cons_append,
        show xs.length + 1 + j = (xs.length + j) + 1 by omega,
        readBEAux, ih, List.foldl_cons]

theorem foldl_natBE (k : Nat) : ∀ n acc : Nat,
    (natBE k n).foldl (fun a b => a * 256 + b) acc =
      acc * 256 ^ k + n % 256 ^ k := by
  induction k with
  | zero => intro n acc; simp [natBE, Nat.mod_one]
  | succ k ih =>
      intro n acc
      rw [natBE, List.foldl_append, ih, List.foldl_cons, List.foldl_nil]
      have hpow : 256 ^ (k + 1) = 256 * 256 ^ k := by
        rw [pow_succ]; ring
      have hmod : n % 256 ^ (k + 1) = n % 256 + 256 * (n / 256 % 256 ^ k) := by
        rw [hpow, Nat.mod_mul]
      rw [hmod, hpow]
      ring

theorem readBE_natBE {k n : Nat} (r : List Nat) (h : n < 256 ^ k) :
    readBEAux 0 k (natBE k n ++ r) = some (n, r) := by
  have happ := readBEAux_append (natBE k n) 0 0 r
  rw [natBE_length, Nat.add_zero, foldl_natBE] at happ
  rw [happ, readBEAux, Nat.zero_mul, Nat.zero_add, Nat.mod_eq_of_lt h]

theorem readBytes_append (l r : List Nat) :
    readBytes l.length (l ++ r) = some (l, r) := by
  unfold readBytes
  rw [if_pos (by simp), List.take_left, List.drop_left]

/-! Branch-reduction lemmas for the decoder, one per wire-format case. -/

theorem decode_fixint {b : Nat} (f : Nat) (h : b < 128) (rest : List Nat) :
    msgpackDecode (f + 1) (b :: rest) = some (.num b, rest) := by
  rw [msgpackDecode.eq_def]
  simp only []
  rw [if_pos h]

theorem decode_fixmap {len : Nat} (f : Nat) (h : len < 16)
    (rest : List Nat) :
    msgpackDecode (f + 1) ((0x80 + len) :: rest) =
      (msgpackDecodeObj f len rest).map (fun p => (JVal.obj p.1, p.2)) := by
  rw [msgpackDecode.eq_def]
  simp only []
  rw [if_neg (by omega), if_pos (by omega),
    show 0x80 + len - 0x80 = len by omega]

theorem decode_fixarr {len : Nat} (f : Nat) (h : len < 16)
    (rest : List Nat) :
    msgpackDecode (f + 1) ((0x90 + len) :: rest) =
      (msgpackDecodeArr f len rest).map (fun p => (JVal.arr p.1, p.2)) := by
  rw [msgpackDecode.eq_def]
  simp only []
  rw [if_neg (by omega), if_neg (by omega), if_pos (by omega),
    show 0x90 + len - 0x90 = len by omega]

theorem decode_fixstr {len : Nat} (f : Nat) (h : len < 32)
    (rest : List Nat) :
    msgpackDecode (f + 1) ((0xa0 + len) :: rest) =
      (readBytes len rest).map (fun p => (JVal.str p.1, p.2)) := by
  rw [msgpackDecode.eq_def]
  simp only []
  rw [if_neg (by omega), if_neg (by omega), if_neg (by omega),
    if_pos (by omega), show 0xa0 + len - 0xa0 = len by omega]

theorem decode_false (f : Nat) (rest : List Nat) :
    msgpackDecode (f + 1) (0xc2 :: rest) = some (.bool false, rest) := by
  rw [msgpackDecode.eq_def]; norm_num

theorem decode_true (f : Nat) (rest : List Nat) :
    msgpackDecode (f + 1) (0xc3 :: rest) = some (.bool true, rest) := by
  rw [msgpackDecode.eq_def]; norm_num

theorem decode_uint8 (f n : Nat) (rest : List Nat) :
    msgpackDecode (f + 1) (0xcc :: n :: rest) = some (.num n, rest) := by
  rw [msgpackDecode.eq_def]; norm_num

theorem decode_uint16 (f n : Nat) (h : n < 65536) (rest : List Nat) :
    msgpackDecode (f + 1) (0xcd :: (natBE 2 n ++ rest)) =
      some (.num n, rest) := by
  rw [msgpackDecode.eq_def]
  norm_num
  rw [readBE_natBE rest (by norm_num; omega)]

theorem decode_uint32 (f n : Nat) (h : n < 4294967296) (rest : List Nat) :
    msgpackDecode (f + 1) (0xce :: (natBE 4 n ++ rest)) =
      some (.num n, rest) := by
  rw [msgpackDecode.eq_def]
  norm_num
  rw [readBE_natBE rest (by norm_num; omega)]

theorem decode_uint64 (f n : Nat) (h : n < 18446744073709551616)
    (rest : List Nat) :
    msgpackDecode (f + 1) (0xcf :: (natBE 8 n ++ rest)) =
      some (.num n, rest) := by
  rw [msgpackDecode.eq_def]
  norm_num
  rw [readBE_natBE rest (by norm_num; omega)]

theorem decode_str8 (f len : Nat) (rest : List Nat) :
    msgpackDecode (f + 1) (0xd9 :: len :: rest) =
      (readBytes len rest).map (fun p => (JVal.str p.1, p.2)) := by
  rw [msgpackDecode.eq_def]; norm_num

theorem decode_str16 (f len : Nat) (h : len < 65536) (rest : List Nat) :
    msgpackDecode (f + 1) (0xda :: (natBE 2 len ++ rest)) =
      (readBytes len rest).map (fun p => (JVal.str p.1, p.2)) := by
  rw [msgpackDecode.eq_def]
  norm_num
  rw [readBE_natBE rest (by norm_num; omega)]
  rfl

theorem decode_str32 (f len : Nat) (h : len < 4294967296)
    (rest : List Nat) :
    msgpackDecode (f + 1) (0xdb :: (natBE 4 len ++ rest)) =
      (readBytes len rest).map (fun p => (JVal.str p.1, p.2)) := by
  rw [msgpackDecode.eq_def]
  norm_num
  rw [readBE_natBE rest (by norm_num; omega)]
  rfl

theorem decode_arr16 (f len : Nat) (h : len < 65536) (rest : List Nat) :
    msgpackDecode (f + 1) (0xdc :: (natBE 2 len ++ rest)) =
      (msgpackDecodeArr f len rest).map (fun p => (JVal.arr p.1, p.2)) := by
  rw [msgpackDecode.eq_def]
  norm_num
  rw [readBE_natBE rest (by norm_num; omega)]
  rfl

theorem decode_arr32 (f len : Nat) (h : len < 4294967296)
    (rest : List Nat) :
    msgpackDecode (f + 1) (0xdd :: (natBE 4 len ++ rest)) =
      (msgpackDecodeArr f len rest).map (fun p => (JVal.arr p.1, p.2)) := by
  rw [msgpackDecode.eq_def]
  norm_num
  rw [readBE_natBE rest (by norm_num; omega)]
  rfl

theorem decode_map16 (f len : Nat) (h : len < 65536) (rest : List Nat) :
    msgpackDecode (f + 1) (0xde :: (natBE 2 len ++ rest)) =
      (msgpackDecodeObj f len rest).map (fun p => (JVal.obj p.1, p.2)) := by
  rw [msgpackDecode.eq_def]
  norm_num
  rw [readBE_natBE rest (by norm_num; omega)]
  rfl

theorem decode_map32 (f len : Nat) (h : len < 4294967296)
    (rest : List Nat) :
    msgpackDecode (f + 1) (0xdf :: (natBE 4 len ++ rest)) =
      (msgpackDecodeObj f len rest).map (fun p => (JVal.obj p.1, p.2)) := by
  rw [msgpackDecode.eq_def]
  norm_num
  rw [readBE_natBE rest (by norm_num; omega)]
  rfl

theorem decodeArr_zero (f : Nat) (l : List Nat) :
    msgpackDecodeArr (f + 1) 0 l = some (.nil, l) := rfl

theorem decodeArr_succ (f n : Nat) (l : List Nat) :
    msgpackDecodeArr (f + 1) (n + 1) l =
      (msgpackDecode f l).bind (fun p =>
        (msgpackDecodeArr f n p.2).map (fun q =>
          (JArr.cons p.1 q.1, q.2))) := rfl

theorem decodeObj_zero (f : Nat) (l : List Nat) :
    msgpackDecodeObj (f + 1) 0 l = some (.nil, l) := rfl

theorem decodeObj_succ (f n : Nat) (l : List Nat) :
    msgpackDecodeObj (f + 1) (n + 1) l =
      (msgpackDecode f l).bind (fun p =>
        match p.1 with
        | .str k =>
            (msgpackDecode f p.2).bind (fun pv =>
              (msgpackDecodeObj f n pv.2).map (fun q =>
                (JObj.cons k pv.1 q.1, q.2)))
        | _ => none) := rfl

theorem sizeVal_pos (v : JVal) : 1 ≤ JVal.size v := by
  cases v <;> simp [JVal.size] <;> omega

theorem sizeArr_pos (a : JArr) : 1 ≤ JArr.size a := by
  cases a <;> simp [JArr.size] <;> omega

theorem sizeObj_pos (o : JObj) : 1 ≤ JObj.size o := by
  cases o <;> simp [JObj.size] <;> omega

/-- The encode/decode round-trip for values, arrays and objects, by
induction on the decoder's fuel. -/
theorem msgpack_roundtrip : ∀ f : Nat,
    (∀ (v : JVal) (r : List Nat), JVal.size v ≤ f → JVal.wf v = true →
      msgpackDecode f (msgpackEncode v ++ r) = some (v, r)) ∧
    (∀ (a : JArr) (r : List Nat), JArr.size a ≤ f → JArr.wf a = true →
      msgpackDecodeArr f (JArr.length a) (msgpackEncodeArr a ++ r) =
        some (a, r)) ∧
    (∀ (o : JObj) (r : List Nat), JObj.size o ≤ f → JObj.wf o = true →
      msgpackDecodeObj f (JObj.length o) (msgpackEncodeObj o ++ r) =
        some (o, r)) := by
  intro f
  induction f with
  | zero =>
      refine ⟨fun v r hs _ => absurd hs (by have := sizeVal_pos v; omega),
        fun a r hs _ => absurd hs (by have := sizeArr_pos a; omega),
        fun o r hs _ => absurd hs (by have := sizeObj_pos o; omega)⟩
  | succ f ih =>
      obtain ⟨ihv, iha, iho⟩ := ih
      refine ⟨?_, ?_, ?_⟩
      · intro v r hs hwf
        cases v with
        | str bs =>
            simp only [JVal.wf, Bool.and_eq_true, decide_eq_true_eq] at hwf
            rw [show msgpackEncode (JVal.str bs) =
                msgpackStrHeader bs.length ++ bs from rfl,
              List.append_assoc, msgpackStrHeader]
            by_cases h32 : bs.length < 32
            · rw [if_pos h32, List.singleton_append,
                decode_fixstr f h32, readBytes_append]
              rfl
            · by_cases h256 : bs.length < 256
              · rw [if_neg h32, if_pos h256, List.cons_append,
                  List.cons_append, List.nil_append,
                  decode_str8 f bs.length, readBytes_append]
                rfl
              · by_cases h65536 : bs.length < 65536
                · rw [if_neg h32, if_neg h256, if_pos h65536,
                    List.cons_append,
                    decode_str16 f bs.length h65536, readBytes_append]
                  rfl
                · rw [if_neg h32, if_neg h256, if_neg h65536,
                    List.cons_append,
                    decode_str32 f bs.length hwf.1, readBytes_append]
                  rfl
        | num n =>
            simp only [JVal.wf, decide_eq_true_eq] at hwf
            rw [show msgpackEncode (JVal.num n) = msgpackNat n from rfl,
              msgpackNat]
            by_cases h128 : n < 128
            · rw [if_pos h128, List.singleton_append, decode_fixint f h128]
            · by_cases h256 : n < 256
              · rw [if_neg h128, if_pos h256, List.cons_append,
                  List.cons_append, List.nil_append, decode_uint8]
              · by_cases h65536 : n < 65536
                · rw [if_neg h128, if_neg h256, if_pos h65536,
                    List.cons_append, decode_uint16 f n h65536]
                · by_cases h32 : n < 4294967296
                  · rw [if_neg h128, if_neg h256, if_neg h65536,
                      if_pos h32, List.cons_append, decode_uint32 f n h32]
                  · rw [if_neg h128, if_neg h256, if_neg h65536,
                      if_neg h32, List.cons_append, decode_uint64 f n hwf]
        | bool b =>
            cases b
            · rw [show msgpackEncode (JVal.bool false) = [0xc2] from rfl,
                List.singleton_append, decode_false]
            · rw [show msgpackEncode (JVal.bool true) = [0xc3] from rfl,
                List.singleton_append, decode_true]
        | arr a =>
            simp only [JVal.wf, Bool.and_eq_true, decide_eq_true_eq] at hwf
            have hs' : JArr.size a ≤ f := by
              rw [show JVal.size (JVal.arr a) = 1 + JArr.size a from rfl]
                at hs
              omega
            rw [show msgpackEncode (JVal.arr a) =
                msgpackArrHeader (JArr.length a) ++ msgpackEncodeArr a
                from rfl,
              List.append_assoc, msgpackArrHeader]
            by_cases h16 : JArr.length a < 16
            · rw [if_pos h16, List.singleton_append, decode_fixarr f h16,
                iha a r hs' hwf.2]
              rfl
            · by_cases h65536 : JArr.length a < 65536
              · rw [if_neg h16, if_pos h65536, List.cons_append,
                  decode_arr16 f (JArr.length a) h65536,
                  iha a r hs' hwf.2]
                rfl
              · rw [if_neg h16, if_neg h65536, List.cons_append,
                  decode_arr32 f (JArr.length a) hwf.1,
                  iha a r hs' hwf.2]
                rfl
        | obj o =>
            simp only [JVal.wf, Bool.and_eq_true, decide_eq_true_eq] at hwf
            have hs' : JObj.size o ≤ f := by
              rw [show JVal.size (JVal.obj o) = 1 + JObj.size o from rfl]
                at hs
              omega
            rw [show msgpackEncode (JVal.obj o) =
                msgpackMapHeader (JObj.length o) ++ msgpackEncodeObj o
                from rfl,
              List.append_assoc, msgpackMapHeader]
            by_cases h16 : JObj.length o < 16
            · rw [if_pos h16, List.singleton_append, decode_fixmap f h16,
                iho o r hs' hwf.2]
              rfl
            · by_cases h65536 : JObj.length o < 65536
              · rw [if_neg h16, if_pos h65536, List.cons_append,
                  decode_map16 f (JObj.length o) h65536,
                  iho o r hs' hwf.2]
                rfl
              · rw [if_neg h16, if_neg h65536, List.cons_append,
                  decode_map32 f (JObj.length o) hwf.1,
                  iho o r hs' hwf.2]
                rfl
      · intro a r hs hwf
        cases a with
        | nil =>
            rw [show msgpackEncodeArr JArr.nil = [] from rfl,
              List.nil_append,
              show JArr.length JArr.nil = 0 from rfl, decodeArr_zero]
        | cons v rest =>
            have h1 := sizeVal_pos v
            have h2 := sizeArr_pos rest
            rw [show JArr.size (JArr.cons v rest) =
                1 + JVal.size v + JArr.size rest from rfl] at hs
            rw [show JArr.wf (JArr.cons v rest) =
                (JVal.wf v && JArr.wf rest) from rfl,
              Bool.and_eq_true] at hwf
            rw [show msgpackEncodeArr (JArr.cons v rest) =
                msgpackEncode v ++ msgpackEncodeArr rest from rfl,
              List.append_assoc,
              show JArr.length (JArr.cons v rest) =
                JArr.length rest + 1 from rfl,
              decodeArr_succ,
              ihv v (msgpackEncodeArr rest ++ r) (by omega) hwf.1]
            show (msgpackDecodeArr f (JArr.length rest)
                (msgpackEncodeArr rest ++ r)).map
                (fun q => (JArr.cons v q.1, q.2)) =
              some (JArr.cons v rest, r)
            rw [iha rest r (by omega) hwf.2]
            rfl
      · intro o r hs hwf
        cases o with
        | nil =>
            rw [show msgpackEncodeObj JObj.nil = [] from rfl,
              List.nil_append,
              show JObj.length JObj.nil = 0 from rfl, decodeObj_zero]
        | cons k v rest =>
            have h1 := sizeVal_pos v
            have h2 := sizeObj_pos rest
            rw [show JObj.size (JObj.cons k v rest) =
                1 + JVal.size v + JObj.size rest from rfl] at hs
            rw [show JObj.wf (JObj.cons k v rest) =
                ((decide (k.length < 4294967296) &&
                  k.all (fun b => decide (b < 256))) &&
                 JVal.wf v && JObj.wf rest) from rfl,
              Bool.and_eq_true, Bool.and_eq_true] at hwf
            obtain ⟨⟨hk, hv⟩, hr⟩ := hwf
            have hkey : JVal.wf (JVal.str k) = true := hk
            rw [show msgpackEncodeObj (JObj.cons k v rest) =
                msgpackEncode (JVal.str k) ++
                  (msgpackEncode v ++ msgpackEncodeObj rest) from by
                rw [show msgpackEncode (JVal.str k) =
                  msgpackStrHeader k.length ++ k from rfl]
                simp [msgpackEncodeObj, List.append_assoc],
              List.append_assoc, List.append_assoc,
              show JObj.length (JObj.cons k v rest) =
                JObj.length rest + 1 from rfl,
              decodeObj_succ,
              ihv (JVal.str k)
                (msgpackEncode v ++ (msgpackEncodeObj rest ++ r))
                (by rw [show JVal.size (JVal.str k) = 1 from rfl]; omega)
                hkey]
            show (msgpackDecode f
                (msgpackEncode v ++ (msgpackEncodeObj rest ++ r))).bind
                (fun pv => (msgpackDecodeObj f (JObj.length rest)
                  pv.2).map
                  (fun q => (JObj.cons k pv.1 q.1, q.2))) =
              some (JObj.cons k v rest, r)
            rw [ihv v (msgpackEncodeObj rest ++ r) (by omega) hv]
            show (msgpackDecodeObj f (JObj.length rest)
                (msgpackEncodeObj rest ++ r)).map
                (fun q => (JObj.cons k v q.1, q.2)) =
              some (JObj.cons k v rest, r)
            rw [iho rest r (by omega) hr]
            rfl

/-! ### Every encoded byte is below 256, so the base64 layer is loss-free -/

theorem natBE_lt (k : Nat) : ∀ n, ∀ b ∈ natBE k n, b < 256 := by
  induction k with
  | zero => intro n b hb; simp [natBE] at hb
  | succ k ih =>
      intro n b hb
      rw [natBE] at hb
      rcases List.mem_append.1 hb with h | h
      · exact ih _ b h
      · simp at h; omega

theorem msgpackNat_lt (n b : Nat) (hn : n < 18446744073709551616)
    (hb : b ∈ msgpackNat n) : b < 256 := by
  unfold msgpackNat at hb
  split_ifs at hb with h1 h2 h3 h4 <;> simp at hb
  · omega
  · rcases hb with rfl | rfl <;> omega
  · rcases hb with rfl | h
    · omega
    · exact natBE_lt 2 n b h
  · rcases hb with rfl | h
    · omega
    · exact natBE_lt 4 n b h
  · rcases hb with rfl | h
    · omega
    · exact natBE_lt 8 n b h

theorem msgpackStrHeader_lt (len b : Nat)
    (hb : b ∈ msgpackStrHeader len) : b < 256 := by
  unfold msgpackStrHeader at hb
  split_ifs at hb with h1 h2 h3 <;> simp at hb
  · omega
  · rcases hb with rfl | rfl <;> omega
  · rcases hb with rfl | h
    · omega
    · exact natBE_lt 2 len b h
  · rcases hb with rfl | h
    · omega
    · exact natBE_lt 4 len b h

theorem msgpackArrHeader_lt (len b : Nat)
    (hb : b ∈ msgpackArrHeader len) : b < 256 := by
  unfold msgpackArrHeader at hb
  split_ifs at hb with h1 h2 <;> simp at hb
  · omega
  · rcases hb with rfl | h
    · omega
    · exact natBE_lt 2 len b h
  · rcases hb with rfl | h
    · omega
    · exact natBE_lt 4 len b h

theorem msgpackMapHeader_lt (len b : Nat)
    (hb : b ∈ msgpackMapHeader len) : b < 256 := by
  unfold msgpackMapHeader at hb
  split_ifs at hb with h1 h2 <;> simp at hb
  · omega
  · rcases hb with rfl | h
    · omega
    · exact natBE_lt 2 len b h
  · rcases hb with rfl | h
    · omega
    · exact natBE_lt 4 len b h

/-- Every byte emitted for a well-formed value is below 256. -/
theorem msgpack_bytes_lt : ∀ f : Nat,
    (∀ v : JVal, JVal.size v ≤ f → JVal.wf v = true →
      ∀ b ∈ msgpackEncode v, b < 256) ∧
    (∀ a : JArr, JArr.size a ≤ f → JArr.wf a = true →
      ∀ b ∈ msgpackEncodeArr a, b < 256) ∧
    (∀ o : JObj, JObj.size o ≤ f → JObj.wf o = true →
      ∀ b ∈ msgpackEncodeObj o, b < 256) := by
  intro f
  induction f with
  | zero =>
      refine ⟨fun v hs _ => absurd hs (by have := sizeVal_pos v; omega),
        fun a hs _ => absurd hs (by have := sizeArr_pos a; omega),
        fun o hs _ => absurd hs (by have := sizeObj_pos o; omega)⟩
  | succ f ih =>
      obtain ⟨ihv, iha, iho⟩ := ih
      refine ⟨?_, ?_, ?_⟩
      · intro v hs hwf b hb
        cases v with
        | str bs =>
            simp only [JVal.wf, Bool.and_eq_true, List.all_eq_true,
              decide_eq_true_eq] at hwf
            rw [show msgpackEncode (JVal.str bs) =
                msgpackStrHeader bs.length ++ bs from rfl] at hb
            rcases List.mem_append.1 hb with h | h
            · exact msgpackStrHeader_lt bs.length b h
            · exact hwf.2 b h
        | num n =>
            simp only [JVal.wf, decide_eq_true_eq] at hwf
            exact msgpackNat_lt n b hwf hb
        | bool bv =>
            cases bv <;> simp [msgpackEncode] at hb <;> omega
        | arr a =>
            simp only [JVal.wf, Bool.and_eq_true, decide_eq_true_eq] at hwf
            have hs' : JArr.size a ≤ f := by
              rw [show JVal.size (JVal.arr a) = 1 + JArr.size a from rfl]
                at hs
              omega
            rw [show msgpackEncode (JVal.arr a) =
                msgpackArrHeader (JArr.length a) ++ msgpackEncodeArr a
                from rfl] at hb
            rcases List.mem_append.1 hb with h | h
            · exact msgpackArrHeader_lt (JArr.length a) b h
            · exact iha a hs' hwf.2 b h
        | obj o =>
            simp only [JVal.wf, Bool.and_eq_true, decide_eq_true_eq] at hwf
            have hs' : JObj.size o ≤ f := by
              rw [show JVal.size (JVal.obj o) = 1 + JObj.size o from rfl]
                at hs
              omega
            rw [show msgpackEncode (JVal.obj o) =
                msgpackMapHeader (JObj.length o) ++ msgpackEncodeObj o
                from rfl] at hb
            rcases List.mem_append.1 hb with h | h
            · exact msgpackMapHeader_lt (JObj.length o) b h
            · exact iho o hs' hwf.2 b h
      · intro a hs hwf b hb
        cases a with
        | nil => simp [msgpackEncodeArr] at hb
        | cons v rest =>
            have h1 := sizeVal_pos v
            have h2 := sizeArr_pos rest
            rw [show JArr.size (JArr.cons v rest) =
                1 + JVal.size v + JArr.size rest from rfl] at hs
            rw [show JArr.wf (JArr.cons v rest) =
                (JVal.wf v && JArr.wf rest) from rfl,
              Bool.and_eq_true] at hwf
            rw [show msgpackEncodeArr (JArr.cons v rest) =
                msgpackEncode v ++ msgpackEncodeArr rest from rfl] at hb
            rcases List.mem_append.1 hb with h | h
            · exact ihv v (by omega) hwf.1 b h
            · exact iha rest (by omega) hwf.2 b h
      · intro o hs hwf b hb
        cases o with
        | nil => simp [msgpackEncodeObj] at hb
        | cons k v rest =>
            have h1 := sizeVal_pos v
            have h2 := sizeObj_pos rest
            rw [show JObj.size (JObj.cons k v rest) =
                1 + JVal.size v + JObj.size rest from rfl] at hs
            rw [show JObj.wf (JObj.cons k v rest) =
                ((decide (k.length < 4294967296) &&
                  k.all (fun b => decide (b < 256))) &&
                 JVal.wf v && JObj.wf rest) from rfl,
              Bool.and_eq_true, Bool.and_eq_true] at hwf
            obtain ⟨⟨hk, hv⟩, hr⟩ := hwf
            rw [Bool.and_eq_true, List.all_eq_true] at hk
            rw [show msgpackEncodeObj (JObj.cons k v rest) =
                msgpackStrHeader k.length ++ k ++ msgpackEncode v ++
                  msgpackEncodeObj rest from rfl] at hb
            rcases List.mem_append.1 hb with h | h
            · rcases List.mem_append.1 h with h' | h'
              · rcases List.mem_append.1 h' with h'' | h''
                · exact msgpackStrHeader_lt k.length b h''
                · exact of_decide_eq_true (hk.2 b h'')
              · exact ihv v (by omega) hv b h'
            · exact iho rest (by omega) hr b h

/-! ### Base64 round-trip -/

theorem b64Val_b64Char : ∀ k : Nat, k < 64 → b64Val (b64Char k) = some k := by
  decide

theorem b64Char_ne_eq : ∀ k : Nat, k < 64 → ¬ (b64Char k = '=') := by
  decide

theorem b64_roundtrip : ∀ l : List Nat, (∀ x ∈ l, x < 256) →
    base64DecodeL (base64EncodeL l) = some l := by
  intro l
  induction l using base64EncodeL.induct with
  | case1 => intro _; rfl
  | case2 a =>
      intro hl
      have ha : a < 256 := hl a (by simp)
      have e1 := b64Val_b64Char (a / 4) (by omega)
      have e2 := b64Val_b64Char (a % 4 * 16) (by omega)
      simp [base64EncodeL, base64DecodeL, e1, e2]
      omega
  | case3 a b =>
      intro hl
      have ha : a < 256 := hl a (by simp)
      have hb : b < 256 := hl b (by simp)
      have e1 := b64Val_b64Char (a / 4) (by omega)
      have e2 := b64Val_b64Char (a % 4 * 16 + b / 16) (by omega)
      have e3 := b64Val_b64Char (b % 16 * 4) (by omega)
      have n3 := b64Char_ne_eq (b % 16 * 4) (by omega)
      simp [base64EncodeL, base64DecodeL, e1, e2, e3, n3]
      omega
  | case4 a b c rest ih =>
      intro hl
      have ha : a < 256 := hl a (by simp)
      have hb : b < 256 := hl b (by simp)
      have hc : c < 256 := hl c (by simp)
      have e1 := b64Val_b64Char (a / 4) (by omega)
      have e2 := b64Val_b64Char (a % 4 * 16 + b / 16) (by omega)
      have e3 := b64Val_b64Char (b % 16 * 4 + c / 64) (by omega)
      have e4 := b64Val_b64Char (c % 64) (by omega)
      have n3 := b64Char_ne_eq (b % 16 * 4 + c / 64) (by omega)
      have n4 := b64Char_ne_eq (c % 64) (by omega)
      have hrest := ih (fun x hx => hl x (by simp [hx]))
      simp [base64EncodeL, base64DecodeL, e1, e2, e3, e4, n3, n4, hrest]
      omega

/-- C3: for a fixed included-file set and run state, base64-decoding the
MessagePack archive's payload (the text between the
MSGPACK_BASE64_START and MSGPACK_BASE64_END sentinels) and then
MessagePack-decoding the bytes yields exactly the parsed plain-JSON
document built at the archive's generation time `t'`, consuming every
byte; and that document agrees with the plain-JSON run's document (built
at its own time `t`) once the `metadata.generatedAt` timestamp field is
blanked. The well-formedness hypothesis asks that the document's numbers
and lengths fit the MessagePack headers and its strings are byte
strings. -/
theorem msgpack_payload_refines_json (env : JsonRunEnv)
    (files : List String) (t t' : String)
    (hwf : JVal.wf (jsonDocument env files t') = true) :
    (base64Decode (msgpackPayload env files t')).bind
        (msgpackDecode (JVal.size (jsonDocument env files t'))) =
      some (jsonDocument env files t', []) ∧
    eraseTs (jsonDocument env files t') =
      eraseTs (jsonDocument env files t) := by
  constructor
  · have hbytes : ∀ x ∈ msgpackEncode (jsonDocument env files t'),
        x < 256 :=
      (msgpack_bytes_lt (JVal.size (jsonDocument env files t'))).1 _
        le_rfl hwf
    have hb64 : base64Decode (msgpackPayload env files t') =
        some (msgpackEncode (jsonDocument env files t')) :=
      b64_roundtrip _ hbytes
    rw [hb64]
    show msgpackDecode (JVal.size (jsonDocument env files t'))
        (msgpackEncode (jsonDocument env files t')) = _
    have h := (msgpack_roundtrip (JVal.size (jsonDocument env files t'))).1
      (jsonDocument env files t') [] le_rfl hwf
    rw [List.append_nil] at h
    exact h
  · rfl

theorem msgpack_payload_refines_json_witness :
    JVal.wf (jsonDocument witnessJsonEnv ["a.js"]
        "2024-06-01T12:00:00.000Z") = true ∧
    ((base64Decode (msgpackPayload witnessJsonEnv ["a.js"]
          "2024-06-01T12:00:00.000Z")).bind
        (msgpackDecode (JVal.size (jsonDocument witnessJsonEnv ["a.js"]
          "2024-06-01T12:00:00.000Z"))) =
      some (jsonDocument witnessJsonEnv ["a.js"]
        "2024-06-01T12:00:00.000Z", []) ∧
    eraseTs (jsonDocument witnessJsonEnv ["a.js"]
        "2024-06-01T12:00:00.000Z") =
      eraseTs (jsonDocument witnessJsonEnv ["a.js"]
        "2024-01-15T08:30:00.000Z")) :=
  ⟨by decide, msgpack_payload_refines_json witnessJsonEnv ["a.js"]
    "2024-01-15T08:30:00.000Z" "2024-06-01T12:00:00.000Z" (by decide)⟩

end CodePack
